import Mathlib

/-! # Flanking sensor suppression: `capsense_fss_algorithm.c`

A shallow embedding of `fss_algorithm` and `capsense_fss` and the properties
of the arbitration they implement.

Conventions of the embedding.

* A `uint64_t` value is a natural number below `2 ^ 64`; the theorems carry
  that bound as a hypothesis where it matters.  A left shift at type
  `uint64_t` is reduced modulo `2 ^ 64`.
* C expressions whose behaviour the language leaves undefined (a shift by at
  least the width of the promoted operand, a signed shift whose result is not
  representable) evaluate to `none`.
* The `for` loop of `fss_algorithm` is a recursive function with a step
  budget (`fuel`); running out of budget is `none`.  One unit of budget is
  spent per evaluation of the loop condition.
* The widget table `cy_capsense_context.ptrWdConfig` is a list of widgets,
  each carrying the list of its sensors' `status` bytes, so `numSns` is the
  length of that list and `CY_CAPSENSE_WIDGET_COUNT` the length of the table.
* The two loops over the table keep the `uint8_t` counter `widget` of the
  source: its increment wraps at 256, so on a table of 256 or more widgets the
  loop condition never fails and the loops run out of budget (`none`).  The
  same `fuel` is the budget of each loop of a call of `capsense_fss`.
* The inner loops recurse over the sensor list of one button widget; their
  `uint8_t` counter `sensor_iter` does not wrap as long as the widget has fewer
  than 256 sensors; the statements that assert a result of `capsense_fss` or of
  its writeback pass bound the number of button sensors of the table
  accordingly.
-/

namespace Fss

/-! ## Constants -/

/-- Macro `CURRENTBUTTONSTATUS_LSB_MASK` of the source, `0x0000000000000001u`. -/
def CURRENTBUTTONSTATUS_LSB_MASK : Nat := 1

/-- Macro `RIGHT_SHIFT_1BIT` of the source, `1u`. -/
def RIGHT_SHIFT_1BIT : Nat := 1

/-- Width in bits of `int` and `unsigned int` on the target of the source
(PSoC 4, an Arm Cortex-M0/M0+ device). -/
def INT_BITS : Nat := 32

/-- Modelled from the spec: the macro `CY_CAPSENSE_SNS_TOUCH_STATUS_MASK` is
declared in the sensing middleware's headers, which are not part of the
sources.  The spec calls it the touch flag bit of a sensor status; the
writeback loop of `capsense_fss` stores the resolved bit through
`CURRENTBUTTONSTATUS_LSB_MASK`, so the touch flag is bit 0.  As an unsuffixed
or `u`-suffixed integer constant its type is `int` or `unsigned int`; the
embedding takes `unsigned int`, the more permissive of the two for the shift
applied to it. -/
def CY_CAPSENSE_SNS_TOUCH_STATUS_MASK : Nat := 1

/-- Bitwise complement at type `uint64_t` (the operator `~` of the source),
for an operand below `2 ^ 64`. -/
def not64 (x : Nat) : Nat := (2 ^ 64 - 1) ^^^ x

/-- Macro `FSS_ENABLE_MASK` of the source, `((1 << sensorCount) - 1)`.  The
constant `1` has type `int` and `sensorCount` is promoted to `int`, so the
shift is a signed shift at width `INT_BITS`: it is defined only when the count
is below the width and `1 * 2 ^ sensorCount` is representable in `int`.  The
non-negative `int` result converts to `uint64_t` without change. -/
def FSS_ENABLE_MASK (sensorCount : Nat) : Option Nat :=
  if sensorCount < INT_BITS ∧ 1 * 2 ^ sensorCount ≤ 2 ^ (INT_BITS - 1) - 1 then
    some ((1 <<< sensorCount) - 1)
  else
    none

/-! ## The arbiter `fss_algorithm` -/

/-- The priority-scan loop of `fss_algorithm`:
`for (reportedButtons = 1; (0 == (reportedButtons & activeFssButtons)) && (0 != reportedButtons); reportedButtons <<= 1) {}`
entered with the current value of `reportedButtons`.  The result is the value
of `reportedButtons` when the loop condition fails. -/
def fss_scan (activeFssButtons : Nat) : Nat → Nat → Option Nat
  | 0, _ => none
  | fuel + 1, reportedButtons =>
    if (reportedButtons &&& activeFssButtons) = 0 ∧ reportedButtons ≠ 0 then
      fss_scan activeFssButtons fuel ((reportedButtons <<< 1) % 2 ^ 64)
    else
      some reportedButtons

/-- The function `fss_algorithm` of the source.  `fssEnableMask` is the value
the macro `FSS_ENABLE_MASK` expands to at the top of the function; the source
invites the integrator to modify that macro, so the embedding takes its value
as an argument. -/
def fss_algorithm (fuel fssEnableMask currentButtonStatus previousButtonStatus : Nat) :
    Option Nat :=
  let reportedButtons := previousButtonStatus &&& fssEnableMask
  let activeFssButtons := currentButtonStatus &&& fssEnableMask
  if (activeFssButtons &&& previousButtonStatus) = 0 then
    match fss_scan activeFssButtons fuel 1 with
    | none => none
    | some reportedButtons =>
      some (reportedButtons ||| (currentButtonStatus &&& not64 fssEnableMask))
  else
    some (reportedButtons ||| (currentButtonStatus &&& not64 fssEnableMask))

/-- Successive cycles of the arbiter with a fixed enable mask: each result is
stored as `previousButtonStatus` for the next call, as `capsense_fss` does.
Returns the results of all calls in order. -/
def fss_cycles (fuel fssEnableMask : Nat) : Nat → List Nat → Option (List Nat)
  | _, [] => some []
  | previousButtonStatus, currentButtonStatus :: rest =>
    match fss_algorithm fuel fssEnableMask currentButtonStatus previousButtonStatus with
    | none => none
    | some result =>
      match fss_cycles fuel fssEnableMask result rest with
      | none => none
      | some results => some (result :: results)

/-! ## The widget table and `capsense_fss` -/

/-- Modelled from the spec: the widget kinds of the sensing middleware
(`wdType`), whose declaration is not part of the sources.  Only the
distinction between a button widget (`CY_CAPSENSE_WD_BUTTON_E`) and any other
kind matters to `capsense_fss`. -/
inductive WdType where
  | CY_CAPSENSE_WD_BUTTON_E
  | CY_CAPSENSE_WD_LINEAR_SLIDER_E
  | CY_CAPSENSE_WD_RADIAL_SLIDER_E
  | CY_CAPSENSE_WD_MATRIX_BUTTON_E
  | CY_CAPSENSE_WD_TOUCHPAD_E
  | CY_CAPSENSE_WD_PROXIMITY_E
  deriving DecidableEq

/-- One entry of `cy_capsense_context.ptrWdConfig`: the widget kind and the
`status` byte of each of its sensors (`ptrSnsContext[0 .. numSns - 1].status`). -/
structure Widget where
  wdType : WdType
  ptrSnsContext : List Nat
  deriving DecidableEq

/-- The inner loop of the collect pass over the sensors of one button widget,
threading `(currentButtonStatus, sensorCount)`.  The operand
`status & CY_CAPSENSE_SNS_TOUCH_STATUS_MASK` has type `unsigned int`, so the
shift by `sensorCount` is carried out at width `INT_BITS` and is undefined for
a count of `INT_BITS` or more; its result is then widened to `uint64_t` for
the `|=`.  `sensorCount` is a `uint8_t`. -/
def collect_sensors : List Nat → Nat × Nat → Option (Nat × Nat)
  | [], acc => some acc
  | status :: rest, (currentButtonStatus, sensorCount) =>
    if sensorCount < INT_BITS then
      collect_sensors rest
        (currentButtonStatus |||
            (((status &&& CY_CAPSENSE_SNS_TOUCH_STATUS_MASK) <<< sensorCount) % 2 ^ INT_BITS),
          (sensorCount + 1) % 256)
    else
      none

/-- The outer loop of the collect pass of `capsense_fss`,
`for (uint8_t widget = 0; widget < CY_CAPSENSE_WIDGET_COUNT; widget++)`, entered
with the current value of `widget` and threading
`(currentButtonStatus, sensorCount)`.  The counter is a `uint8_t`: its
increment wraps at 256.  One unit of budget is spent per evaluation of the
loop condition. -/
def collect_widgets (ptrWdConfig : List Widget) : Nat → Nat → Nat × Nat → Option (Nat × Nat)
  | 0, _, _ => none
  | fuel + 1, widget, acc =>
    if h : widget < ptrWdConfig.length then
      if ptrWdConfig[widget].wdType = WdType.CY_CAPSENSE_WD_BUTTON_E then
        match collect_sensors ptrWdConfig[widget].ptrSnsContext acc with
        | none => none
        | some acc2 => collect_widgets ptrWdConfig fuel ((widget + 1) % 256) acc2
      else
        collect_widgets ptrWdConfig fuel ((widget + 1) % 256) acc
    else
      some acc

/-- The inner loop of the writeback pass over the sensors of one button
widget: `status &= (CURRENTBUTTONSTATUS_LSB_MASK & currentButtonStatus)`
followed by `currentButtonStatus >>= RIGHT_SHIFT_1BIT`.  Returns the new status
bytes and the remaining `currentButtonStatus`. -/
def writeback_sensors : List Nat → Nat → List Nat × Nat
  | [], currentButtonStatus => ([], currentButtonStatus)
  | status :: rest, currentButtonStatus =>
    let r := writeback_sensors rest (currentButtonStatus >>> RIGHT_SHIFT_1BIT)
    ((status &&& (CURRENTBUTTONSTATUS_LSB_MASK &&& currentButtonStatus)) :: r.1, r.2)

/-- The outer loop of the writeback pass of `capsense_fss`,
`for (uint8_t widget = 0; widget < CY_CAPSENSE_WIDGET_COUNT; widget++)`, entered
with the current value of `widget`, the table as updated so far and the
remaining `currentButtonStatus`.  The sensors of a button widget are updated in
place; the counter wraps at 256 as in the collect loop.  One unit of budget is
spent per evaluation of the loop condition. -/
def writeback_widgets : Nat → Nat → List Widget → Nat → Option (List Widget × Nat)
  | 0, _, _, _ => none
  | fuel + 1, widget, ptrWdConfig, currentButtonStatus =>
    if h : widget < ptrWdConfig.length then
      if ptrWdConfig[widget].wdType = WdType.CY_CAPSENSE_WD_BUTTON_E then
        let s := writeback_sensors ptrWdConfig[widget].ptrSnsContext currentButtonStatus
        writeback_widgets fuel ((widget + 1) % 256)
          (ptrWdConfig.set widget { ptrWdConfig[widget] with ptrSnsContext := s.1 }) s.2
      else
        writeback_widgets fuel ((widget + 1) % 256) ptrWdConfig currentButtonStatus
    else
      some (ptrWdConfig, currentButtonStatus)

/-- The state `capsense_fss` reads and writes: the widget table of
`cy_capsense_context` and the three globals of the source. -/
structure FssState where
  ptrWdConfig : List Widget
  currentButtonStatus : Nat
  previousButtonStatus : Nat
  sensorCount : Nat
  deriving DecidableEq

/-- The function `capsense_fss` of the source: collect, arbitrate with the
mask `FSS_ENABLE_MASK` at the collected `sensorCount`, store the result as
`previousButtonStatus`, write back. -/
def capsense_fss (fuel : Nat) (s : FssState) : Option FssState :=
  match collect_widgets s.ptrWdConfig fuel 0 (0, 0) with
  | none => none
  | some (collected, sensorCount) =>
    match FSS_ENABLE_MASK sensorCount with
    | none => none
    | some fssEnableMask =>
      match fss_algorithm fuel fssEnableMask collected s.previousButtonStatus with
      | none => none
      | some result =>
        match writeback_widgets fuel 0 s.ptrWdConfig result with
        | none => none
        | some wb =>
          some { ptrWdConfig := wb.1
                 currentButtonStatus := wb.2
                 previousButtonStatus := result
                 sensorCount := sensorCount }

/-! ## Notions used to state the properties -/

/-- The status bytes of the button sensors, in the (widget, sensor)
enumeration order of the two passes of `capsense_fss`: position `i` of this
list is the sensor with index `i`. -/
def buttonStatuses : List Widget → List Nat
  | [] => []
  | w :: rest =>
    if w.wdType = WdType.CY_CAPSENSE_WD_BUTTON_E then
      w.ptrSnsContext ++ buttonStatuses rest
    else
      buttonStatuses rest

/-- The table and the remaining vector the writeback loop ends with on a table
whose widgets are all visited once, written as a recursion over the table; the
lemma `writeback_widgets_eq_table` shows that `writeback_widgets` computes it
when the table has fewer than 256 widgets. -/
def writeback_table : List Widget → Nat → List Widget × Nat
  | [], currentButtonStatus => ([], currentButtonStatus)
  | w :: rest, currentButtonStatus =>
    if w.wdType = WdType.CY_CAPSENSE_WD_BUTTON_E then
      let s := writeback_sensors w.ptrSnsContext currentButtonStatus
      let r := writeback_table rest s.2
      ({ w with ptrSnsContext := s.1 } :: r.1, r.2)
    else
      let r := writeback_table rest currentButtonStatus
      (w :: r.1, r.2)

/-- At most one bit of `x` is set. -/
def AtMostOneBit (x : Nat) : Prop :=
  ∀ i j : Nat, x.testBit i = true → x.testBit j = true → i = j

/-- The value `r` is the lowest set bit of `x`: a single bit, set in `x`, with no
bit of `x` set below it. -/
def IsLowestSetBitOf (r x : Nat) : Prop :=
  ∃ j, r = 2 ^ j ∧ x.testBit j = true ∧ ∀ i, i < j → x.testBit i = false

/-- The touch vector the collect pass is meant to build from the status bytes
of the button sensors taken in order from index `k` on: bit `k + i` is the
touch flag of the `i`-th byte. -/
def touchVector : Nat → List Nat → Nat
  | _, [] => 0
  | k, status :: rest => ((status &&& 1) <<< k) ||| touchVector (k + 1) rest

/-- The priority-scan loop of `fss_algorithm` with a counter: the same loop as
`fss_scan`, returning with the final `reportedButtons` the number of times the
loop step `reportedButtons <<= 1` was executed, counted from `iterations`. -/
def fss_scan_steps (activeFssButtons : Nat) : Nat → Nat → Nat → Option (Nat × Nat)
  | 0, _, _ => none
  | fuel + 1, reportedButtons, iterations =>
    if (reportedButtons &&& activeFssButtons) = 0 ∧ reportedButtons ≠ 0 then
      fss_scan_steps activeFssButtons fuel ((reportedButtons <<< 1) % 2 ^ 64) (iterations + 1)
    else
      some (reportedButtons, iterations)

/-- The arbiter in the formulation the spec recommends for its step 2, with
both operands of the hold test masked: `stickyHolds` is
`(current & enableMask) & (LatchedState & enableMask)`.  Everything else is
`fss_algorithm` of the source. -/
def fss_algorithm_masked (fuel fssEnableMask currentButtonStatus previousButtonStatus : Nat) :
    Option Nat :=
  let reportedButtons := previousButtonStatus &&& fssEnableMask
  let activeFssButtons := currentButtonStatus &&& fssEnableMask
  if (activeFssButtons &&& (previousButtonStatus &&& fssEnableMask)) = 0 then
    match fss_scan activeFssButtons fuel 1 with
    | none => none
    | some reportedButtons =>
      some (reportedButtons ||| (currentButtonStatus &&& not64 fssEnableMask))
  else
    some (reportedButtons ||| (currentButtonStatus &&& not64 fssEnableMask))

/-- Every bit set in `x` is set in `y`. -/
def BitsWithin (x y : Nat) : Prop :=
  ∀ i : Nat, x.testBit i = true → y.testBit i = true

/-- The frame of `capsense_fss` between the widget table before and after a
call: the table keeps its shape, a widget that is not a button widget is
unchanged, and no status bit of any sensor goes from 0 to 1. -/
def FramePreserved (before after : List Widget) : Prop :=
  after.length = before.length ∧
    ∀ (k : Nat) (w : Widget), before[k]? = some w →
      ∃ w2, after[k]? = some w2 ∧ w2.wdType = w.wdType ∧
        (w.wdType ≠ WdType.CY_CAPSENSE_WD_BUTTON_E → w2 = w) ∧
        w2.ptrSnsContext.length = w.ptrSnsContext.length ∧
        ∀ (j st : Nat), w.ptrSnsContext[j]? = some st →
          ∃ st2, w2.ptrSnsContext[j]? = some st2 ∧
            ∀ b : Nat, st.testBit b = false → st2.testBit b = false


/-! ## Bit-level facts -/

theorem testBit_of_lt_two_pow_64 {m : Nat} (hm : m < 2 ^ 64) {i : Nat}
    (h : m.testBit i = true) : i < 64 := by
  by_contra hi
  have hle : 2 ^ 64 ≤ 2 ^ i := Nat.pow_le_pow_right (by decide) (Nat.le_of_not_lt hi)
  have := Nat.testBit_lt_two_pow (Nat.lt_of_lt_of_le hm hle)
  rw [this] at h
  exact Bool.noConfusion h

theorem testBit_not64 (m i : Nat) :
    (not64 m).testBit i = (decide (i < 64) ^^ m.testBit i) := by
  unfold not64
  rw [Nat.testBit_xor, Nat.testBit_two_pow_sub_one]

theorem two_pow_and_eq_zero_iff (k a : Nat) : (2 ^ k &&& a) = 0 ↔ a.testBit k = false := by
  constructor
  · intro h
    have h1 : (2 ^ k &&& a).testBit k = false := by rw [h]; exact Nat.zero_testBit k
    rw [Nat.testBit_and, Nat.testBit_two_pow_self] at h1
    simpa using h1
  · intro h
    apply Nat.eq_of_testBit_eq
    intro i
    rw [Nat.testBit_and, Nat.testBit_two_pow, Nat.zero_testBit]
    by_cases hki : k = i
    · subst hki; simp [h]
    · simp [hki]

theorem and_not64_and_self {m : Nat} (hm : m < 2 ^ 64) (x : Nat) :
    (x &&& not64 m) &&& m = 0 := by
  apply Nat.eq_of_testBit_eq
  intro i
  rw [Nat.testBit_and, Nat.testBit_and, testBit_not64, Nat.zero_testBit]
  cases hmi : m.testBit i
  · simp
  · have := testBit_of_lt_two_pow_64 hm hmi
    simp [this]

theorem not64_lt (m : Nat) (hm : m < 2 ^ 64) : not64 m < 2 ^ 64 := by
  apply Nat.lt_pow_two_of_testBit
  intro i hi
  rw [testBit_not64]
  have h1 : ¬ i < 64 := Nat.not_lt.mpr hi
  have h2 : m.testBit i = false := by
    cases h : m.testBit i
    · rfl
    · exact absurd (testBit_of_lt_two_pow_64 hm h) h1
  simp [h1, h2]


/-! ## The priority scan -/

theorem fss_scan_from (a : Nat) :
    ∀ (d k fuel : Nat), k + d = 64 → d < fuel →
      (∀ j, j < k → a.testBit j = false) →
      ∃ r, fss_scan a fuel (2 ^ k % 2 ^ 64) = some r ∧
        ((r = 0 ∧ ∀ j, j < 64 → a.testBit j = false) ∨
          ∃ j, j < 64 ∧ r = 2 ^ j ∧ a.testBit j = true ∧
            ∀ i, i < j → a.testBit i = false) := by
  intro d
  induction d with
  | zero =>
    intro k fuel hk hf hlow
    have hk64 : k = 64 := by omega
    subst hk64
    obtain ⟨f, rfl⟩ : ∃ f, fuel = f + 1 := ⟨fuel - 1, by omega⟩
    refine ⟨0, ?_, Or.inl ⟨rfl, hlow⟩⟩
    simp [fss_scan]
  | succ d ih =>
    intro k fuel hk hf hlow
    have hk64 : k < 64 := by omega
    obtain ⟨f, rfl⟩ : ∃ f, fuel = f + 1 := ⟨fuel - 1, by omega⟩
    have hmod : 2 ^ k % 2 ^ 64 = 2 ^ k :=
      Nat.mod_eq_of_lt (Nat.pow_lt_pow_right (by decide) hk64)
    have hpos : (2 : Nat) ^ k ≠ 0 := Nat.pos_iff_ne_zero.mp (Nat.pow_pos (by decide))
    rw [hmod]
    cases hbit : a.testBit k with
    | true =>
      refine ⟨2 ^ k, ?_, Or.inr ⟨k, hk64, rfl, hbit, hlow⟩⟩
      have hne : ¬ (2 ^ k &&& a) = 0 := by
        rw [two_pow_and_eq_zero_iff, hbit]; exact Bool.noConfusion
      simp [fss_scan, hne]
    | false =>
      have hz : (2 ^ k &&& a) = 0 := (two_pow_and_eq_zero_iff k a).mpr hbit
      have hstep : (2 ^ k <<< 1) % 2 ^ 64 = 2 ^ (k + 1) % 2 ^ 64 := by
        rw [Nat.shiftLeft_eq, ← Nat.pow_succ]
      have hlow2 : ∀ j, j < k + 1 → a.testBit j = false := by
        intro j hj
        rcases Nat.lt_succ_iff_lt_or_eq.mp hj with h | h
        · exact hlow j h
        · rw [h]; exact hbit
      obtain ⟨r, hr, hspec⟩ := ih (k + 1) f (by omega) (by omega) hlow2
      refine ⟨r, ?_, hspec⟩
      rw [← hr, ← hstep]
      simp [fss_scan, hz, hpos]

theorem fss_scan_spec (a fuel : Nat) (hf : 65 ≤ fuel) :
    ∃ r, fss_scan a fuel 1 = some r ∧
      ((r = 0 ∧ ∀ j, j < 64 → a.testBit j = false) ∨
        ∃ j, j < 64 ∧ r = 2 ^ j ∧ a.testBit j = true ∧
          ∀ i, i < j → a.testBit i = false) := by
  have h := fss_scan_from a 64 0 fuel (by omega) (by omega) (fun j hj => absurd hj (Nat.not_lt_zero j))
  simpa using h


/-! ## One call of the arbiter -/

theorem fss_algorithm_hold (fuel m c p : Nat) (h : c &&& m &&& p ≠ 0) :
    fss_algorithm fuel m c p = some ((p &&& m) ||| (c &&& not64 m)) := by
  simp only [fss_algorithm, if_neg h]

theorem fss_algorithm_scan (fuel m c p : Nat) (hf : 65 ≤ fuel) (h : c &&& m &&& p = 0) :
    ∃ rep, fss_algorithm fuel m c p = some (rep ||| (c &&& not64 m)) ∧
      ((rep = 0 ∧ ∀ j, j < 64 → (c &&& m).testBit j = false) ∨
        ∃ j, j < 64 ∧ rep = 2 ^ j ∧ (c &&& m).testBit j = true ∧
          ∀ i, i < j → (c &&& m).testBit i = false) := by
  obtain ⟨rep, hrep, hspec⟩ := fss_scan_spec (c &&& m) fuel hf
  refine ⟨rep, ?_, hspec⟩
  simp only [fss_algorithm, if_pos h, hrep]

theorem group_part {m : Nat} (hm : m < 2 ^ 64) (rep c : Nat) :
    (rep ||| (c &&& not64 m)) &&& m = rep &&& m := by
  rw [Nat.and_distrib_right, and_not64_and_self hm, Nat.or_zero]

theorem two_pow_and_of_testBit {m j : Nat} (h : m.testBit j = true) : 2 ^ j &&& m = 2 ^ j := by
  apply Nat.eq_of_testBit_eq
  intro i
  rw [Nat.testBit_and, Nat.testBit_two_pow]
  by_cases hji : j = i
  · subst hji; simp [h]
  · simp [hji]

theorem two_pow_and_not64 {m j : Nat} (hj : j < 64) (h : m.testBit j = true) :
    2 ^ j &&& not64 m = 0 := by
  rw [two_pow_and_eq_zero_iff, testBit_not64, h]
  simp [hj]

theorem and_and_not64 {m : Nat} (hm : m < 2 ^ 64) (x : Nat) : (x &&& m) &&& not64 m = 0 := by
  apply Nat.eq_of_testBit_eq
  intro i
  rw [Nat.testBit_and, Nat.testBit_and, testBit_not64, Nat.zero_testBit]
  cases hmi : m.testBit i
  · simp
  · have := testBit_of_lt_two_pow_64 hm hmi
    simp [this]

theorem eq_zero_of_low_bits_false {x : Nat} (hx : x < 2 ^ 64)
    (h : ∀ j, j < 64 → x.testBit j = false) : x = 0 := by
  apply Nat.eq_of_testBit_eq
  intro i
  rw [Nat.zero_testBit]
  by_cases hi : i < 64
  · exact h i hi
  · cases hb : x.testBit i
    · rfl
    · exact absurd (testBit_of_lt_two_pow_64 hx hb) hi

theorem and_lt_of_right {m : Nat} (hm : m < 2 ^ 64) (c : Nat) : c &&& m < 2 ^ 64 :=
  Nat.lt_of_le_of_lt Nat.and_le_right hm

/-- The scan branch in closed form: the group part of the result is `0` when no
enabled sensor is touched and the lowest set bit of `c &&& m` otherwise. -/
theorem fss_algorithm_scan_group (fuel m c p : Nat) (hf : 65 ≤ fuel) (hm : m < 2 ^ 64)
    (h : c &&& m &&& p = 0) :
    ∃ r, fss_algorithm fuel m c p = some r ∧
      r &&& not64 m = c &&& not64 m ∧
      (c &&& m = 0 → r &&& m = 0) ∧
      (c &&& m ≠ 0 → IsLowestSetBitOf (r &&& m) (c &&& m)) := by
  obtain ⟨rep, hr, hspec⟩ := fss_algorithm_scan fuel m c p hf h
  refine ⟨_, hr, ?_, ?_, ?_⟩
  · rw [Nat.and_distrib_right]
    rcases hspec with ⟨h0, _⟩ | ⟨j, hj, hrep, hbit, _⟩
    · rw [h0, Nat.zero_and, Nat.zero_or, Nat.and_assoc, Nat.and_self]
    · have hmj : m.testBit j = true := by
        rw [Nat.testBit_and] at hbit
        exact (Bool.and_eq_true _ _ ▸ hbit).2
      rw [hrep, two_pow_and_not64 hj hmj, Nat.zero_or, Nat.and_assoc, Nat.and_self]
  · intro hz
    rw [group_part hm]
    rcases hspec with ⟨h0, _⟩ | ⟨j, _, _, hbit, _⟩
    · rw [h0, Nat.zero_and]
    · rw [hz, Nat.zero_testBit] at hbit
      exact Bool.noConfusion hbit
  · intro hnz
    rw [group_part hm]
    rcases hspec with ⟨_, hall⟩ | ⟨j, _, hrep, hbit, hlow⟩
    · exact absurd (eq_zero_of_low_bits_false (and_lt_of_right hm c) hall) hnz
    · have hmj : m.testBit j = true := by
        rw [Nat.testBit_and] at hbit
        exact (Bool.and_eq_true _ _ ▸ hbit).2
      exact ⟨j, by rw [hrep, two_pow_and_of_testBit hmj], hbit, hlow⟩


/-! ## At most one bit -/

theorem atMostOneBit_zero : AtMostOneBit 0 := by
  intro i j hi _
  rw [Nat.zero_testBit] at hi
  exact Bool.noConfusion hi

theorem atMostOneBit_two_pow (k : Nat) : AtMostOneBit (2 ^ k) := by
  intro i j hi hj
  rw [Nat.testBit_two_pow] at hi hj
  have h1 : k = i := of_decide_eq_true hi
  have h2 : k = j := of_decide_eq_true hj
  omega

theorem atMostOneBit_of_lowest {r x : Nat} (h : IsLowestSetBitOf r x) : AtMostOneBit r := by
  obtain ⟨j, hr, _, _⟩ := h
  rw [hr]
  exact atMostOneBit_two_pow j

/-- One call keeps the group part of the latch at no more than one bit. -/
theorem fss_algorithm_one_hot_step (fuel m c p : Nat) (hf : 65 ≤ fuel) (hm : m < 2 ^ 64)
    (hp : AtMostOneBit (p &&& m)) :
    ∃ r, fss_algorithm fuel m c p = some r ∧ AtMostOneBit (r &&& m) := by
  by_cases h : c &&& m &&& p = 0
  · obtain ⟨r, hr, _, hz, hnz⟩ := fss_algorithm_scan_group fuel m c p hf hm h
    refine ⟨r, hr, ?_⟩
    by_cases hc : c &&& m = 0
    · rw [hz hc]; exact atMostOneBit_zero
    · exact atMostOneBit_of_lowest (hnz hc)
  · refine ⟨_, fss_algorithm_hold fuel m c p h, ?_⟩
    rw [group_part hm, Nat.and_assoc, Nat.and_self]
    exact hp

theorem fss_cycles_one_hot (fuel m : Nat) (hf : 65 ≤ fuel) (hm : m < 2 ^ 64) :
    ∀ (cs : List Nat) (p : Nat), AtMostOneBit (p &&& m) →
      ∃ rs, fss_cycles fuel m p cs = some rs ∧ rs.length = cs.length ∧
        ∀ r, r ∈ rs → AtMostOneBit (r &&& m) := by
  intro cs
  induction cs with
  | nil =>
    intro p _
    exact ⟨[], rfl, rfl, fun r hr => absurd hr (List.not_mem_nil r)⟩
  | cons c rest ih =>
    intro p hp
    obtain ⟨r, hr, hone⟩ := fss_algorithm_one_hot_step fuel m c p hf hm hp
    obtain ⟨rs, hrs, hlen, hall⟩ := ih r hone
    refine ⟨r :: rs, ?_, ?_, ?_⟩
    · simp only [fss_cycles, hr, hrs]
    · simp [hlen]
    · intro x hx
      rcases List.mem_cons.mp hx with h | h
      · rw [h]; exact hone
      · exact hall x h

/-- The scan branch when exactly one enabled sensor is touched and nothing
outside the group is: that sensor is reported. -/
theorem fss_algorithm_single (fuel m p a : Nat) (hf : 65 ≤ fuel) (hm : m < 2 ^ 64)
    (ha : m.testBit a = true) (h : 2 ^ a &&& p = 0) :
    fss_algorithm fuel m (2 ^ a) p = some (2 ^ a) := by
  have ha64 : a < 64 := testBit_of_lt_two_pow_64 hm ha
  have hact : 2 ^ a &&& m = 2 ^ a := two_pow_and_of_testBit ha
  have h0 : 2 ^ a &&& m &&& p = 0 := by rw [hact]; exact h
  obtain ⟨rep, hr, hspec⟩ := fss_algorithm_scan fuel m (2 ^ a) p hf h0
  rw [hr, two_pow_and_not64 ha64 ha, Nat.or_zero]
  rw [hact] at hspec
  rcases hspec with ⟨_, hall⟩ | ⟨j, _, hrep, hbit, _⟩
  · have := hall a ha64
    rw [Nat.testBit_two_pow_self] at this
    exact Bool.noConfusion this
  · rw [Nat.testBit_two_pow] at hbit
    have : a = j := of_decide_eq_true hbit
    rw [hrep, this]


theorem split64 {x : Nat} (hx : x < 2 ^ 64) (m : Nat) : (x &&& m) ||| (x &&& not64 m) = x := by
  apply Nat.eq_of_testBit_eq
  intro i
  rw [Nat.testBit_or, Nat.testBit_and, Nat.testBit_and, testBit_not64]
  cases hxi : x.testBit i
  · simp
  · have hi : i < 64 := testBit_of_lt_two_pow_64 hx hxi
    cases m.testBit i <;> simp [hi]

theorem fss_scan_lt (a : Nat) :
    ∀ (fuel r0 r : Nat), r0 < 2 ^ 64 → fss_scan a fuel r0 = some r → r < 2 ^ 64 := by
  intro fuel
  induction fuel with
  | zero =>
    intro r0 r _ h
    exact Option.noConfusion h
  | succ f ih =>
    intro r0 r h0 h
    unfold fss_scan at h
    split at h
    · exact ih _ r (Nat.mod_lt _ (Nat.pow_pos (by decide))) h
    · injection h with h
      rw [← h]; exact h0

theorem fss_algorithm_lt (fuel m c p r : Nat) (hm : m < 2 ^ 64)
    (h : fss_algorithm fuel m c p = some r) : r < 2 ^ 64 := by
  have hpass : c &&& not64 m < 2 ^ 64 :=
    Nat.lt_of_le_of_lt Nat.and_le_right (not64_lt m hm)
  unfold fss_algorithm at h
  simp only at h
  split at h
  · split at h
    · exact Option.noConfusion h
    · rename_i rep hrep
      injection h with h
      rw [← h]
      exact Nat.or_lt_two_pow (fss_scan_lt _ _ _ _ (by decide) hrep) hpass
  · injection h with h
    rw [← h]
    exact Nat.or_lt_two_pow (and_lt_of_right hm p) hpass

theorem fss_algorithm_self (fuel m r : Nat) (hf : 65 ≤ fuel)
    (hr : r < 2 ^ 64) : fss_algorithm fuel m r r = some r := by
  have hself : r &&& m &&& r = r &&& m := by
    rw [Nat.and_comm (r &&& m) r, ← Nat.and_assoc, Nat.and_self]
  by_cases h : r &&& m &&& r = 0
  · have hz : r &&& m = 0 := by rw [← hself]; exact h
    obtain ⟨rep, hres, hspec⟩ := fss_algorithm_scan fuel m r r hf h
    have hrep : rep = 0 := by
      rcases hspec with ⟨h0, _⟩ | ⟨j, _, _, hbit, _⟩
      · exact h0
      · rw [hz, Nat.zero_testBit] at hbit
        exact Bool.noConfusion hbit
    have hsplit := split64 hr m
    rw [hz, Nat.zero_or] at hsplit
    rw [hres, hrep, Nat.zero_or, hsplit]
  · rw [fss_algorithm_hold fuel m r r h, split64 hr m]

/-! ## The contract of the arbiter -/

/-- C1. One-hot invariant: starting from `previousButtonStatus = 0` with a fixed
64-bit enable mask `m`, every finite sequence of current vectors is resolved
call after call (each result fed back as the next previous), and the group
part `r &&& m` of every result `r` has at most one bit set. -/
theorem one_hot_invariant (fuel m : Nat) (hf : 65 ≤ fuel) (hm : m < 2 ^ 64) (cs : List Nat) :
    ∃ rs, fss_cycles fuel m 0 cs = some rs ∧ rs.length = cs.length ∧
      ∀ r, r ∈ rs → AtMostOneBit (r &&& m) :=
  fss_cycles_one_hot fuel m hf hm cs 0 (by rw [Nat.zero_and]; exact atMostOneBit_zero)

theorem one_hot_invariant_witness :
    65 ≤ 65 ∧ 7 < 2 ^ 64 ∧
      ∃ rs, fss_cycles 65 7 0 [10, 14, 4, 6] = some rs ∧ rs.length = [10, 14, 4, 6].length ∧
        ∀ r, r ∈ rs → AtMostOneBit (r &&& 7) :=
  ⟨by decide, by decide, one_hot_invariant 65 7 (by decide) (by decide) [10, 14, 4, 6]⟩

/-- C2. Sticky hold: when `(current & m & previous) != 0`, `fss_algorithm` returns
`(previous & m) | (current & ~m)`: the group part of the latch is kept as it
is, whichever other group sensors are touched now. -/
theorem sticky_hold (fuel m current previous : Nat) (h : current &&& m &&& previous ≠ 0) :
    fss_algorithm fuel m current previous =
      some ((previous &&& m) ||| (current &&& not64 m)) :=
  fss_algorithm_hold fuel m current previous h

theorem sticky_hold_witness :
    (0b1110 &&& 0b0111 &&& 0b1010 ≠ 0) ∧ fss_algorithm 65 0b0111 0b1110 0b1010 = some 0b1010 :=
  ⟨by decide, sticky_hold 65 0b0111 0b1110 0b1010 (by decide)⟩

/-- C3. Sticky priority over three cycles: for two distinct sensors `a` and `b`
of the enabled group, in either index order, the current vectors `{a}`,
`{a, b}`, `{b}` resolved from `previousButtonStatus = 0` give `{a}`, `{a}`,
`{b}`. -/
theorem sticky_priority_trace (fuel m a b : Nat) (hf : 65 ≤ fuel) (hm : m < 2 ^ 64)
    (hab : a ≠ b) (ha : m.testBit a = true) (hb : m.testBit b = true) :
    fss_cycles fuel m 0 [2 ^ a, 2 ^ a ||| 2 ^ b, 2 ^ b] = some [2 ^ a, 2 ^ a, 2 ^ b] := by
  have ha64 : a < 64 := testBit_of_lt_two_pow_64 hm ha
  have hb64 : b < 64 := testBit_of_lt_two_pow_64 hm hb
  have h1 : fss_algorithm fuel m (2 ^ a) 0 = some (2 ^ a) :=
    fss_algorithm_single fuel m 0 a hf hm ha (Nat.and_zero _)
  have hne : (2 ^ a ||| 2 ^ b) &&& m &&& 2 ^ a ≠ 0 := by
    intro h0
    have hbit : ((2 ^ a ||| 2 ^ b) &&& m &&& 2 ^ a).testBit a = false := by
      rw [h0]; exact Nat.zero_testBit a
    rw [Nat.testBit_and, Nat.testBit_and, Nat.testBit_or, Nat.testBit_two_pow_self, ha] at hbit
    simp at hbit
  have h2 : fss_algorithm fuel m (2 ^ a ||| 2 ^ b) (2 ^ a) = some (2 ^ a) := by
    rw [fss_algorithm_hold fuel m _ _ hne, Nat.and_distrib_right, two_pow_and_not64 ha64 ha,
      two_pow_and_not64 hb64 hb, two_pow_and_of_testBit ha, Nat.or_zero, Nat.or_zero]
  have h3 : fss_algorithm fuel m (2 ^ b) (2 ^ a) = some (2 ^ b) := by
    apply fss_algorithm_single fuel m (2 ^ a) b hf hm hb
    rw [two_pow_and_eq_zero_iff]
    exact Nat.testBit_two_pow_of_ne hab
  simp only [fss_cycles, h1, h2, h3]

theorem sticky_priority_trace_witness :
    65 ≤ 65 ∧ 7 < 2 ^ 64 ∧ 0 ≠ 1 ∧ (7 : Nat).testBit 0 = true ∧ (7 : Nat).testBit 1 = true ∧
      fss_cycles 65 7 0 [1, 3, 2] = some [1, 1, 2] :=
  ⟨by decide, by decide, by decide, by decide, by decide,
    sticky_priority_trace 65 7 0 1 (by decide) (by decide) (by decide) (by decide) (by decide)⟩


/-- C4. Positional priority: when `(current & m & previous) == 0`, the group part
of the result is `0` if no enabled sensor is touched and otherwise exactly the
lowest set bit of `current & m`; in particular, when index 0 is touched and
enabled, only index 0 is reported in the group, whatever higher indices are
touched with it. -/
theorem positional_priority (fuel m current previous : Nat) (hf : 65 ≤ fuel)
    (hm : m < 2 ^ 64) (h : current &&& m &&& previous = 0) :
    ∃ r, fss_algorithm fuel m current previous = some r ∧
      (current &&& m = 0 → r &&& m = 0) ∧
      (current &&& m ≠ 0 → IsLowestSetBitOf (r &&& m) (current &&& m)) ∧
      (current.testBit 0 = true → m.testBit 0 = true → r &&& m = 2 ^ 0) := by
  obtain ⟨r, hr, _, hz, hnz⟩ := fss_algorithm_scan_group fuel m current previous hf hm h
  refine ⟨r, hr, hz, hnz, ?_⟩
  intro hc0 hm0
  have hbit : (current &&& m).testBit 0 = true := by
    rw [Nat.testBit_and, hc0, hm0]; rfl
  have hne : current &&& m ≠ 0 := by
    intro h0
    rw [h0, Nat.zero_testBit] at hbit
    exact Bool.noConfusion hbit
  obtain ⟨j, hj, _, hlow⟩ := hnz hne
  have hj0 : j = 0 := by
    by_contra hpos
    have := hlow 0 (Nat.pos_of_ne_zero hpos)
    rw [hbit] at this
    exact Bool.noConfusion this
  rw [hj, hj0]

theorem positional_priority_witness :
    65 ≤ 65 ∧ 3 < 2 ^ 64 ∧ 3 &&& 3 &&& 0 = 0 ∧
      ∃ r, fss_algorithm 65 3 3 0 = some r ∧
        (3 &&& 3 = 0 → r &&& 3 = 0) ∧
        (3 &&& 3 ≠ 0 → IsLowestSetBitOf (r &&& 3) (3 &&& 3)) ∧
        ((3 : Nat).testBit 0 = true → (3 : Nat).testBit 0 = true → r &&& 3 = 2 ^ 0) :=
  ⟨by decide, by decide, by decide,
    positional_priority 65 3 3 0 (by decide) (by decide) (by decide)⟩

/-- C5. Pass-through: for 64-bit `m`, the bits of the result outside the enable
mask are those of `current`, whatever the latched state is:
`(result & ~m) == (current & ~m)`. -/
theorem pass_through (fuel m current previous : Nat) (hf : 65 ≤ fuel) (hm : m < 2 ^ 64) :
    ∃ r, fss_algorithm fuel m current previous = some r ∧
      r &&& not64 m = current &&& not64 m := by
  by_cases h : current &&& m &&& previous = 0
  · obtain ⟨r, hr, hpass, _, _⟩ := fss_algorithm_scan_group fuel m current previous hf hm h
    exact ⟨r, hr, hpass⟩
  · refine ⟨_, fss_algorithm_hold fuel m current previous h, ?_⟩
    rw [Nat.and_distrib_right, and_and_not64 hm, Nat.zero_or, Nat.and_assoc, Nat.and_self]

theorem pass_through_witness :
    65 ≤ 65 ∧ 0b0111 < 2 ^ 64 ∧ fss_algorithm 65 0b0111 0b1010 0 = some 0b1010 ∧
      ∃ r, fss_algorithm 65 0b0111 0b1010 0 = some r ∧
        r &&& not64 0b0111 = 0b1010 &&& not64 0b0111 :=
  ⟨by decide, by decide, by decide, pass_through 65 0b0111 0b1010 0 (by decide) (by decide)⟩

/-- C7. Idempotence: a vector `r` that `fss_algorithm` returned, presented again
as both `current` and `previous` under the same 64-bit mask, is returned
unchanged. -/
theorem idempotence (fuel m current previous r : Nat) (hf : 65 ≤ fuel) (hm : m < 2 ^ 64)
    (h : fss_algorithm fuel m current previous = some r) :
    fss_algorithm fuel m r r = some r :=
  fss_algorithm_self fuel m r hf (fss_algorithm_lt fuel m current previous r hm h)

theorem idempotence_witness :
    65 ≤ 65 ∧ 0b0111 < 2 ^ 64 ∧ fss_algorithm 65 0b0111 0b1110 0b1010 = some 0b1010 ∧
      fss_algorithm 65 0b0111 0b1010 0b1010 = some 0b1010 :=
  ⟨by decide, by decide, by decide,
    idempotence 65 0b0111 0b1110 0b1010 0b1010 (by decide) (by decide) (by decide)⟩


/-! ## The two passes over the widget table -/

theorem collect_sensors_append (a b : List Nat) :
    ∀ acc : Nat × Nat,
      collect_sensors (a ++ b) acc =
        match collect_sensors a acc with
        | none => none
        | some acc2 => collect_sensors b acc2 := by
  induction a with
  | nil => intro acc; rfl
  | cons st rest ih =>
    intro acc
    obtain ⟨cur, cnt⟩ := acc
    by_cases h : cnt < INT_BITS
    · rw [List.cons_append]
      simp only [collect_sensors, if_pos h]
      exact ih _
    · rw [List.cons_append]
      simp only [collect_sensors, if_neg h]

theorem succ_mod_256 {widget len : Nat} (h : widget < len) (hlen : len ≤ 255) :
    (widget + 1) % 256 = widget + 1 :=
  Nat.mod_eq_of_lt (by omega)

/-- On a table of fewer than 256 widgets and with budget for one condition
evaluation per remaining widget and one more, the collect loop entered at
`widget` is the collect pass over the button sensors from that widget on. -/
theorem collect_widgets_eq (ws : List Widget) (hlen : ws.length ≤ 255) :
    ∀ (fuel widget : Nat) (acc : Nat × Nat), widget ≤ ws.length →
      ws.length - widget < fuel →
      collect_widgets ws fuel widget acc =
        collect_sensors (buttonStatuses (ws.drop widget)) acc := by
  intro fuel
  induction fuel with
  | zero =>
    intro widget acc _ hf
    omega
  | succ f ih =>
    intro widget acc hw hf
    by_cases h : widget < ws.length
    · have hinc := succ_mod_256 h hlen
      have hdrop : ws.drop widget = ws[widget] :: ws.drop (widget + 1) :=
        List.drop_eq_getElem_cons h
      have hrec := fun a => ih (widget + 1) a (by omega) (by omega)
      rw [hdrop]
      by_cases hb : ws[widget].wdType = WdType.CY_CAPSENSE_WD_BUTTON_E
      · simp only [collect_widgets, dif_pos h, if_pos hb, hinc, buttonStatuses,
          collect_sensors_append]
        cases collect_sensors ws[widget].ptrSnsContext acc with
        | none => rfl
        | some acc2 => exact hrec acc2
      · simp only [collect_widgets, dif_pos h, if_neg hb, hinc, buttonStatuses]
        exact hrec acc
    · have hw2 : widget = ws.length := by omega
      subst hw2
      simp only [collect_widgets, dif_neg h, List.drop_length, buttonStatuses, collect_sensors]

theorem collect_sensors_ok :
    ∀ (sts : List Nat) (cur cnt : Nat), cnt + sts.length ≤ 32 →
      collect_sensors sts (cur, cnt) = some (cur ||| touchVector cnt sts, cnt + sts.length) := by
  intro sts
  induction sts with
  | nil =>
    intro cur cnt _
    simp [collect_sensors, touchVector]
  | cons st rest ih =>
    intro cur cnt hlen
    rw [List.length_cons] at hlen
    have hcnt : cnt < INT_BITS := by unfold INT_BITS; omega
    have hbit : st &&& 1 ≤ 1 := Nat.and_le_right
    have hpow : 2 ^ cnt < 2 ^ 32 := Nat.pow_lt_pow_right (by decide) (by omega)
    have hsh : ((st &&& CY_CAPSENSE_SNS_TOUCH_STATUS_MASK) <<< cnt) % 2 ^ INT_BITS
        = (st &&& 1) <<< cnt := by
      unfold CY_CAPSENSE_SNS_TOUCH_STATUS_MASK INT_BITS
      apply Nat.mod_eq_of_lt
      rw [Nat.shiftLeft_eq]
      calc (st &&& 1) * 2 ^ cnt ≤ 1 * 2 ^ cnt := Nat.mul_le_mul_right _ hbit
        _ < 2 ^ 32 := by rw [Nat.one_mul]; exact hpow
    have hinc : (cnt + 1) % 256 = cnt + 1 := Nat.mod_eq_of_lt (by omega)
    simp only [collect_sensors, if_pos hcnt, hsh, hinc]
    rw [ih _ _ (by omega)]
    simp only [touchVector, List.length_cons, Nat.lor_assoc]
    congr 2
    omega

theorem collect_sensors_overflow :
    ∀ (sts : List Nat) (cur cnt : Nat), cnt ≤ 32 → 32 < cnt + sts.length →
      collect_sensors sts (cur, cnt) = none := by
  intro sts
  induction sts with
  | nil =>
    intro cur cnt h1 h2
    simp at h2
    omega
  | cons st rest ih =>
    intro cur cnt h1 h2
    rw [List.length_cons] at h2
    by_cases hcnt : cnt < INT_BITS
    · have h32 : cnt < 32 := hcnt
      have hinc : (cnt + 1) % 256 = cnt + 1 := Nat.mod_eq_of_lt (by omega)
      simp only [collect_sensors, if_pos hcnt, hinc]
      exact ih _ _ (by omega) (by omega)
    · simp only [collect_sensors, if_neg hcnt]

theorem collect_widgets_ok (ws : List Widget) (fuel : Nat) (hlen : ws.length ≤ 255)
    (hfuel : ws.length < fuel) (h : (buttonStatuses ws).length ≤ 32) :
    collect_widgets ws fuel 0 (0, 0) =
      some (touchVector 0 (buttonStatuses ws), (buttonStatuses ws).length) := by
  rw [collect_widgets_eq ws hlen fuel 0 (0, 0) (Nat.zero_le _) (by omega), List.drop_zero,
    collect_sensors_ok _ _ _ (by omega), Nat.zero_or, Nat.zero_add]

theorem collect_widgets_overflow (ws : List Widget) (fuel : Nat) (hlen : ws.length ≤ 255)
    (hfuel : ws.length < fuel) (h : 32 < (buttonStatuses ws).length) :
    collect_widgets ws fuel 0 (0, 0) = none := by
  rw [collect_widgets_eq ws hlen fuel 0 (0, 0) (Nat.zero_le _) (by omega), List.drop_zero]
  exact collect_sensors_overflow _ _ _ (by omega) (by omega)

theorem one_testBit (j : Nat) : (1 : Nat).testBit j = decide (j = 0) := by
  have h := @Nat.testBit_two_pow 0 j
  rw [Nat.pow_zero] at h
  rw [h]
  by_cases hj : j = 0
  · subst hj; rfl
  · have : ¬ 0 = j := fun h0 => hj h0.symm
    simp [hj, this]

/-- Bit `i` of the touch vector built from index `k` on is the touch flag of the
status byte at position `i - k`, and `0` outside the positions of the list. -/
theorem touchVector_testBit :
    ∀ (sts : List Nat) (k i : Nat),
      (touchVector k sts).testBit i =
        (decide (k ≤ i) &&
          match sts[i - k]? with
          | some st => st.testBit 0
          | none => false) := by
  intro sts
  induction sts with
  | nil =>
    intro k i
    simp [touchVector]
  | cons st rest ih =>
    intro k i
    rw [touchVector, Nat.testBit_or, Nat.testBit_shiftLeft, Nat.testBit_and, one_testBit, ih]
    rcases Nat.lt_trichotomy i k with hlt | heq | hgt
    · have h1 : ¬ k ≤ i := by omega
      have h2 : ¬ k + 1 ≤ i := by omega
      have h3 : ¬ i ≥ k := by omega
      simp [h1, h2, h3]
    · subst heq
      simp
    · have h1 : k ≤ i := by omega
      have h2 : k + 1 ≤ i := by omega
      have h3 : i - k = (i - (k + 1)) + 1 := by omega
      have h4 : ¬ i - k = 0 := by omega
      rw [h3, List.getElem?_cons_succ, ← h3]
      simp [h1, h2, h4]

/-! ### Writeback -/

theorem writeback_sensors_append (a b : List Nat) :
    ∀ cur : Nat,
      writeback_sensors (a ++ b) cur =
        ((writeback_sensors a cur).1 ++ (writeback_sensors b (writeback_sensors a cur).2).1,
          (writeback_sensors b (writeback_sensors a cur).2).2) := by
  induction a with
  | nil => intro cur; rfl
  | cons st rest ih =>
    intro cur
    rw [List.cons_append]
    simp only [writeback_sensors, ih, List.cons_append]

theorem writeback_table_eq (ws : List Widget) :
    ∀ cur : Nat,
      buttonStatuses (writeback_table ws cur).1 =
          (writeback_sensors (buttonStatuses ws) cur).1 ∧
        (writeback_table ws cur).2 = (writeback_sensors (buttonStatuses ws) cur).2 := by
  induction ws with
  | nil => intro cur; exact ⟨rfl, rfl⟩
  | cons w rest ih =>
    intro cur
    by_cases h : w.wdType = WdType.CY_CAPSENSE_WD_BUTTON_E
    · obtain ⟨h1, h2⟩ := ih (writeback_sensors w.ptrSnsContext cur).2
      constructor
      · simp only [writeback_table, buttonStatuses, if_pos h, writeback_sensors_append, h1]
      · simp only [writeback_table, buttonStatuses, if_pos h, writeback_sensors_append, h2]
    · obtain ⟨h1, h2⟩ := ih cur
      constructor
      · simp only [writeback_table, buttonStatuses, if_neg h, h1]
      · simp only [writeback_table, buttonStatuses, if_neg h, h2]

theorem writeback_sensors_get :
    ∀ (sts : List Nat) (cur i : Nat),
      (writeback_sensors sts cur).1[i]? =
        (sts[i]?).map (fun st => st &&& (1 &&& (cur >>> i))) := by
  intro sts
  induction sts with
  | nil => intro cur i; simp [writeback_sensors]
  | cons st rest ih =>
    intro cur i
    cases i with
    | zero =>
      simp [writeback_sensors, CURRENTBUTTONSTATUS_LSB_MASK]
    | succ i =>
      simp only [writeback_sensors, List.getElem?_cons_succ, ih, RIGHT_SHIFT_1BIT]
      rw [← Nat.shiftRight_add, Nat.add_comm 1 i]


/-! ### The writeback loop and its `uint8_t` counter -/

theorem take_succ_set {α : Type} (l : List α) (n : Nat) (a : α) (h : n < l.length) :
    (l.set n a).take (n + 1) = l.take n ++ [a] := by
  rw [List.take_succ, List.getElem?_set_self h, List.set_take]
  have : (l.take n).length ≤ n := by rw [List.length_take]; omega
  rw [List.set_eq_of_length_le this]
  rfl

theorem take_succ_get {α : Type} (l : List α) (n : Nat) (h : n < l.length) :
    l.take (n + 1) = l.take n ++ [l[n]] := by
  rw [List.take_succ, List.getElem?_eq_getElem h]
  rfl

/-- On a table of fewer than 256 widgets and with budget for one condition
evaluation per remaining widget and one more, the writeback loop entered at
`widget` leaves the widgets before `widget` as they are and ends with
`writeback_table` of the widgets from `widget` on. -/
theorem writeback_widgets_eq_table :
    ∀ (fuel widget : Nat) (ws : List Widget) (cur : Nat), ws.length ≤ 255 →
      widget ≤ ws.length → ws.length - widget < fuel →
      writeback_widgets fuel widget ws cur =
        some (ws.take widget ++ (writeback_table (ws.drop widget) cur).1,
          (writeback_table (ws.drop widget) cur).2) := by
  intro fuel
  induction fuel with
  | zero =>
    intro widget ws cur _ _ hf
    omega
  | succ f ih =>
    intro widget ws cur hlen hw hf
    by_cases h : widget < ws.length
    · have hinc := succ_mod_256 h hlen
      have hdrop : ws.drop widget = ws[widget] :: ws.drop (widget + 1) :=
        List.drop_eq_getElem_cons h
      by_cases hb : ws[widget].wdType = WdType.CY_CAPSENSE_WD_BUTTON_E
      · simp only [writeback_widgets, dif_pos h, if_pos hb, hinc]
        rw [ih (widget + 1) _ _ (by rw [List.length_set]; exact hlen)
          (by rw [List.length_set]; omega) (by rw [List.length_set]; omega)]
        rw [hdrop, take_succ_set ws widget _ h,
          List.drop_set_of_lt _ ws (Nat.lt_succ_self widget)]
        simp only [writeback_table, if_pos hb, List.append_assoc, List.singleton_append]
      · simp only [writeback_widgets, dif_pos h, if_neg hb, hinc]
        rw [ih (widget + 1) ws cur hlen (by omega) (by omega), hdrop,
          take_succ_get ws widget h]
        simp only [writeback_table, if_neg hb, List.append_assoc, List.singleton_append]
    · have hw2 : widget = ws.length := by omega
      subst hw2
      simp only [writeback_widgets, dif_neg h, List.drop_length, List.take_length,
        writeback_table, List.append_nil]

theorem writeback_widgets_ok (fuel : Nat) (ws : List Widget) (cur : Nat)
    (hlen : ws.length ≤ 255) (hfuel : ws.length < fuel) :
    writeback_widgets fuel 0 ws cur = some (writeback_table ws cur) := by
  rw [writeback_widgets_eq_table fuel 0 ws cur hlen (Nat.zero_le _) (by omega)]
  rfl

/-- On a table of 256 or more widgets the counter never reaches the widget
count: the writeback loop does not return, whatever the budget. -/
theorem writeback_widgets_wraps :
    ∀ (fuel widget : Nat) (ws : List Widget) (cur : Nat), 256 ≤ ws.length → widget < 256 →
      writeback_widgets fuel widget ws cur = none := by
  intro fuel
  induction fuel with
  | zero => intro widget ws cur _ _; rfl
  | succ f ih =>
    intro widget ws cur hlen hw
    have h : widget < ws.length := by omega
    have hlt : (widget + 1) % 256 < 256 := Nat.mod_lt _ (by decide)
    by_cases hb : ws[widget].wdType = WdType.CY_CAPSENSE_WD_BUTTON_E
    · simp only [writeback_widgets, dif_pos h, if_pos hb]
      exact ih _ _ _ (by rw [List.length_set]; exact hlen) hlt
    · simp only [writeback_widgets, dif_pos h, if_neg hb]
      exact ih _ _ _ hlen hlt

/-- With a budget that does not exceed the number of widgets still to visit,
the writeback loop does not return. -/
theorem writeback_widgets_short :
    ∀ (fuel widget : Nat) (ws : List Widget) (cur : Nat), ws.length ≤ 255 →
      widget ≤ ws.length → fuel ≤ ws.length - widget →
      writeback_widgets fuel widget ws cur = none := by
  intro fuel
  induction fuel with
  | zero => intro widget ws cur _ _ _; rfl
  | succ f ih =>
    intro widget ws cur hlen hw hf
    have h : widget < ws.length := by omega
    have hinc := succ_mod_256 h hlen
    by_cases hb : ws[widget].wdType = WdType.CY_CAPSENSE_WD_BUTTON_E
    · simp only [writeback_widgets, dif_pos h, if_pos hb, hinc]
      exact ih _ _ _ (by rw [List.length_set]; exact hlen) (by rw [List.length_set]; omega)
        (by rw [List.length_set]; omega)
    · simp only [writeback_widgets, dif_pos h, if_neg hb, hinc]
      exact ih _ _ _ hlen (by omega) (by omega)

/-- A writeback loop that returns has visited a table of fewer than 256
widgets within its budget, and its result is `writeback_table`. -/
theorem writeback_widgets_returns (fuel : Nat) (ws : List Widget) (cur : Nat)
    (wb : List Widget × Nat) (h : writeback_widgets fuel 0 ws cur = some wb) :
    ws.length ≤ 255 ∧ ws.length < fuel ∧ wb = writeback_table ws cur := by
  have hlen : ws.length ≤ 255 := by
    by_contra hc
    rw [writeback_widgets_wraps fuel 0 ws cur (by omega) (by decide)] at h
    exact Option.noConfusion h
  have hfuel : ws.length < fuel := by
    by_contra hc
    rw [writeback_widgets_short fuel 0 ws cur hlen (Nat.zero_le _) (by omega)] at h
    exact Option.noConfusion h
  refine ⟨hlen, hfuel, ?_⟩
  rw [writeback_widgets_ok fuel ws cur hlen hfuel] at h
  exact (Option.some.inj h).symm

/-- The collect loop on 256 or more widgets does not return either. -/
theorem collect_widgets_wraps (ws : List Widget) (hlen : 256 ≤ ws.length) :
    ∀ (fuel widget : Nat) (acc : Nat × Nat), widget < 256 →
      collect_widgets ws fuel widget acc = none := by
  intro fuel
  induction fuel with
  | zero => intro widget acc _; rfl
  | succ f ih =>
    intro widget acc hw
    have h : widget < ws.length := by omega
    have hlt : (widget + 1) % 256 < 256 := Nat.mod_lt _ (by decide)
    by_cases hb : ws[widget].wdType = WdType.CY_CAPSENSE_WD_BUTTON_E
    · simp only [collect_widgets, dif_pos h, if_pos hb]
      cases collect_sensors ws[widget].ptrSnsContext acc with
      | none => rfl
      | some acc2 => exact ih _ acc2 hlt
    · simp only [collect_widgets, dif_pos h, if_neg hb]
      exact ih _ acc hlt

theorem collect_widgets_short (ws : List Widget) (hlen : ws.length ≤ 255) :
    ∀ (fuel widget : Nat) (acc : Nat × Nat), widget ≤ ws.length →
      fuel ≤ ws.length - widget → collect_widgets ws fuel widget acc = none := by
  intro fuel
  induction fuel with
  | zero => intro widget acc _ _; rfl
  | succ f ih =>
    intro widget acc hw hf
    have h : widget < ws.length := by omega
    have hinc := succ_mod_256 h hlen
    by_cases hb : ws[widget].wdType = WdType.CY_CAPSENSE_WD_BUTTON_E
    · simp only [collect_widgets, dif_pos h, if_pos hb, hinc]
      cases collect_sensors ws[widget].ptrSnsContext acc with
      | none => rfl
      | some acc2 => exact ih _ acc2 (by omega) (by omega)
    · simp only [collect_widgets, dif_pos h, if_neg hb, hinc]
      exact ih _ acc (by omega) (by omega)

/-- A collect loop that returns has visited a table of fewer than 256 widgets
within its budget. -/
theorem collect_widgets_returns (fuel : Nat) (ws : List Widget) (acc x : Nat × Nat)
    (h : collect_widgets ws fuel 0 acc = some x) :
    ws.length ≤ 255 ∧ ws.length < fuel := by
  have hlen : ws.length ≤ 255 := by
    by_contra hc
    rw [collect_widgets_wraps ws (by omega) fuel 0 acc (by decide)] at h
    exact Option.noConfusion h
  refine ⟨hlen, ?_⟩
  by_contra hc
  rw [collect_widgets_short ws hlen fuel 0 acc (Nat.zero_le _) (by omega)] at h
  exact Option.noConfusion h

theorem FSS_ENABLE_MASK_ok (n : Nat) (h : n ≤ 30) : FSS_ENABLE_MASK n = some (2 ^ n - 1) := by
  have h1 : n < INT_BITS := by unfold INT_BITS; omega
  have h2 : (2 : Nat) ^ n ≤ 2 ^ 30 := Nat.pow_le_pow_right (by decide) h
  have h3 : 1 * 2 ^ n ≤ 2 ^ (INT_BITS - 1) - 1 := by
    unfold INT_BITS
    have : (2 : Nat) ^ 30 ≤ 2 ^ (32 - 1) - 1 := by decide
    omega
  unfold FSS_ENABLE_MASK
  rw [if_pos ⟨h1, h3⟩, Nat.shiftLeft_eq, Nat.one_mul]

theorem FSS_ENABLE_MASK_undefined (n : Nat) (h : 31 ≤ n) : FSS_ENABLE_MASK n = none := by
  have h2 : (2 : Nat) ^ 31 ≤ 2 ^ n := Nat.pow_le_pow_right (by decide) h
  have h3 : ¬ (n < INT_BITS ∧ 1 * 2 ^ n ≤ 2 ^ (INT_BITS - 1) - 1) := by
    unfold INT_BITS
    have : (2 : Nat) ^ (32 - 1) - 1 < 2 ^ 31 := by decide
    omega
  unfold FSS_ENABLE_MASK
  rw [if_neg h3]

/-- C6. Release-to-idle: when no enabled sensor is touched (`current & m == 0`),
`fss_algorithm` returns a result without any group bit, and a cycle of
`capsense_fss` that collects this `current` under this mask stores that result
as `previousButtonStatus`, so the latch for the next cycle has no group bit. -/
theorem release_to_idle (fuel m current previous : Nat) (hf : 65 ≤ fuel) (hm : m < 2 ^ 64)
    (h : current &&& m = 0) :
    (∃ r, fss_algorithm fuel m current previous = some r ∧ r &&& m = 0) ∧
      ∀ (s : FssState) (n : Nat), s.previousButtonStatus = previous →
        collect_widgets s.ptrWdConfig fuel 0 (0, 0) = some (current, n) →
        FSS_ENABLE_MASK n = some m →
        ∃ s2, capsense_fss fuel s = some s2 ∧
          fss_algorithm fuel m current previous = some s2.previousButtonStatus ∧
          s2.previousButtonStatus &&& m = 0 := by
  have h0 : current &&& m &&& previous = 0 := by rw [h, Nat.zero_and]
  obtain ⟨r, hr, _, hz, _⟩ := fss_algorithm_scan_group fuel m current previous hf hm h0
  refine ⟨⟨r, hr, hz h⟩, ?_⟩
  intro s n hprev hcol hmask
  obtain ⟨hlen, hfuel⟩ := collect_widgets_returns fuel s.ptrWdConfig (0, 0) _ hcol
  have hwb := writeback_widgets_ok fuel s.ptrWdConfig r hlen hfuel
  have hrun : capsense_fss fuel s =
      some { ptrWdConfig := (writeback_table s.ptrWdConfig r).1
             currentButtonStatus := (writeback_table s.ptrWdConfig r).2
             previousButtonStatus := r
             sensorCount := n } := by
    simp only [capsense_fss, hcol, hmask, hprev, hr, hwb]
  exact ⟨_, hrun, hr, hz h⟩

theorem release_to_idle_witness :
    65 ≤ 65 ∧ 3 < 2 ^ 64 ∧ 0 &&& 3 = 0 ∧
      (∃ r, fss_algorithm 65 3 0 2 = some r ∧ r &&& 3 = 0) ∧
      ∃ s2, capsense_fss 65
          { ptrWdConfig := [⟨WdType.CY_CAPSENSE_WD_BUTTON_E, [0, 2]⟩,
              ⟨WdType.CY_CAPSENSE_WD_PROXIMITY_E, [1]⟩]
            currentButtonStatus := 2
            previousButtonStatus := 2
            sensorCount := 2 } = some s2 ∧
        fss_algorithm 65 3 0 2 = some s2.previousButtonStatus ∧
        s2.previousButtonStatus &&& 3 = 0 :=
  ⟨by decide, by decide, by decide,
    (release_to_idle 65 3 0 2 (by decide) (by decide) (by decide)).1,
    (release_to_idle 65 3 0 2 (by decide) (by decide) (by decide)).2 _ 2 rfl (by decide)
      (by decide)⟩

/-- C9, the code at a failing input: one button widget with 33 sensors, the
last one touched.  The shift that places the touch flag of the sensor with
index 32 is carried out at 32 bits and is undefined, so the collect pass has no
defined result whatever the budget, where the claim expects `sensorCount = 33`
and bit 32 set. -/
theorem collect_33_sensors_undefined :
    (buttonStatuses [⟨WdType.CY_CAPSENSE_WD_BUTTON_E, List.replicate 32 0 ++ [1]⟩]).length = 33 ∧
      ∀ fuel, collect_widgets [⟨WdType.CY_CAPSENSE_WD_BUTTON_E, List.replicate 32 0 ++ [1]⟩]
        fuel 0 (0, 0) = none := by
  constructor
  · decide
  · intro fuel
    by_cases hfuel : 1 < fuel
    · exact collect_widgets_overflow _ fuel (by decide) hfuel (by decide)
    · exact collect_widgets_short _ (by decide) fuel 0 (0, 0) (Nat.zero_le _)
        (by simp only [List.length_singleton]; omega)

/-- C10, the code at a failing input: with `sensorCount = 32` the `int` shift
`1 << sensorCount` of `FSS_ENABLE_MASK` is undefined, so the macro has no
defined value, where the claim expects `2 ^ 32 - 1`. -/
theorem FSS_ENABLE_MASK_32_undefined : FSS_ENABLE_MASK 32 = none := by
  decide


/-! ## Totality and the length of the scan -/

theorem fss_scan_steps_from (a : Nat) :
    ∀ (d k fuel : Nat), k + d = 64 → d < fuel →
      (∀ j, j < k → a.testBit j = false) →
      ∃ r n, fss_scan_steps a fuel (2 ^ k % 2 ^ 64) k = some (r, n) ∧
        fss_scan a fuel (2 ^ k % 2 ^ 64) = some r ∧
        ((r = 0 ∧ n = 64 ∧ ∀ j, j < 64 → a.testBit j = false) ∨
          (n < 64 ∧ r = 2 ^ n ∧ a.testBit n = true ∧
            ∀ i, i < n → a.testBit i = false)) := by
  intro d
  induction d with
  | zero =>
    intro k fuel hk hf hlow
    have hk64 : k = 64 := by omega
    subst hk64
    obtain ⟨f, rfl⟩ : ∃ f, fuel = f + 1 := ⟨fuel - 1, by omega⟩
    refine ⟨0, 64, ?_, ?_, Or.inl ⟨rfl, rfl, hlow⟩⟩
    · simp [fss_scan_steps]
    · simp [fss_scan]
  | succ d ih =>
    intro k fuel hk hf hlow
    have hk64 : k < 64 := by omega
    obtain ⟨f, rfl⟩ : ∃ f, fuel = f + 1 := ⟨fuel - 1, by omega⟩
    have hmod : 2 ^ k % 2 ^ 64 = 2 ^ k :=
      Nat.mod_eq_of_lt (Nat.pow_lt_pow_right (by decide) hk64)
    have hpos : (2 : Nat) ^ k ≠ 0 := Nat.pos_iff_ne_zero.mp (Nat.pow_pos (by decide))
    rw [hmod]
    cases hbit : a.testBit k with
    | true =>
      have hne : ¬ (2 ^ k &&& a) = 0 := by
        rw [two_pow_and_eq_zero_iff, hbit]; exact Bool.noConfusion
      refine ⟨2 ^ k, k, ?_, ?_, Or.inr ⟨hk64, rfl, hbit, hlow⟩⟩
      · simp [fss_scan_steps, hne]
      · simp [fss_scan, hne]
    | false =>
      have hz : (2 ^ k &&& a) = 0 := (two_pow_and_eq_zero_iff k a).mpr hbit
      have hstep : (2 ^ k <<< 1) % 2 ^ 64 = 2 ^ (k + 1) % 2 ^ 64 := by
        rw [Nat.shiftLeft_eq, ← Nat.pow_succ]
      have hlow2 : ∀ j, j < k + 1 → a.testBit j = false := by
        intro j hj
        rcases Nat.lt_succ_iff_lt_or_eq.mp hj with h | h
        · exact hlow j h
        · rw [h]; exact hbit
      obtain ⟨r, n, hr, hs, hspec⟩ := ih (k + 1) f (by omega) (by omega) hlow2
      refine ⟨r, n, ?_, ?_, hspec⟩
      · rw [← hr, ← hstep]
        simp [fss_scan_steps, hz, hpos]
      · rw [← hs, ← hstep]
        simp [fss_scan, hz, hpos]


theorem fss_scan_mono (a : Nat) :
    ∀ (fuel extra r0 r : Nat), fss_scan a fuel r0 = some r →
      fss_scan a (fuel + extra) r0 = some r := by
  intro fuel
  induction fuel with
  | zero =>
    intro extra r0 r h
    exact Option.noConfusion h
  | succ f ih =>
    intro extra r0 r h
    have hsucc : f + 1 + extra = (f + extra) + 1 := by omega
    rw [hsucc]
    unfold fss_scan at h ⊢
    split at h
    · rename_i hcond
      rw [if_pos hcond]
      exact ih extra _ r h
    · rename_i hcond
      rw [if_neg hcond]
      exact h

theorem fss_algorithm_fuel_irrelevant (fuel m c p : Nat) (hf : 65 ≤ fuel) :
    fss_algorithm fuel m c p = fss_algorithm 65 m c p := by
  obtain ⟨r, hr, _⟩ := fss_scan_spec (c &&& m) 65 (Nat.le_refl 65)
  have hr2 : fss_scan (c &&& m) fuel 1 = some r := by
    have h := fss_scan_mono (c &&& m) 65 (fuel - 65) 1 r hr
    have hfe : 65 + (fuel - 65) = fuel := by omega
    rw [hfe] at h
    exact h
  simp only [fss_algorithm, hr, hr2]

/-- C11. Totality: with a loop budget of 65 condition evaluations or more,
`fss_algorithm` returns a defined result for every current, previous and 64-bit
mask, the result is a 64-bit value and does not depend on the budget.  The
priority-scan loop executes its step `n <= 64` times: it stops after `n < 64`
steps at the probe `2 ^ n`, the first set bit of `current & mask`, or after
exactly 64 steps with the probe wrapped to `0` when `current & mask` has no
bit below 64. -/
theorem totality (fuel m current previous : Nat) (hf : 65 ≤ fuel) (hm : m < 2 ^ 64) :
    (∃ r, fss_algorithm fuel m current previous = some r ∧ r < 2 ^ 64 ∧
        fss_algorithm 65 m current previous = some r) ∧
      ∃ rep n, fss_scan_steps (current &&& m) fuel 1 0 = some (rep, n) ∧
        fss_scan (current &&& m) fuel 1 = some rep ∧ n ≤ 64 ∧
        ((n < 64 ∧ rep = 2 ^ n ∧ (current &&& m).testBit n = true ∧
            ∀ i, i < n → (current &&& m).testBit i = false) ∨
          (n = 64 ∧ rep = 0 ∧ ∀ j, j < 64 → (current &&& m).testBit j = false)) := by
  constructor
  · obtain ⟨r, hr⟩ : ∃ r, fss_algorithm fuel m current previous = some r := by
      by_cases h : current &&& m &&& previous = 0
      · obtain ⟨rep, hrep, _⟩ := fss_algorithm_scan fuel m current previous hf h
        exact ⟨_, hrep⟩
      · exact ⟨_, fss_algorithm_hold fuel m current previous h⟩
    refine ⟨r, hr, fss_algorithm_lt fuel m current previous r hm hr, ?_⟩
    rw [← fss_algorithm_fuel_irrelevant fuel m current previous hf]
    exact hr
  · have h := fss_scan_steps_from (current &&& m) 64 0 fuel (by omega) (by omega)
      (fun j hj => absurd hj (Nat.not_lt_zero j))
    obtain ⟨rep, n, hsteps, hscan, hspec⟩ := h
    refine ⟨rep, n, by simpa using hsteps, by simpa using hscan, ?_, ?_⟩
    · rcases hspec with ⟨_, hn, _⟩ | ⟨hn, _⟩ <;> omega
    · rcases hspec with ⟨hr0, hn, hall⟩ | ⟨hn, hr, hbit, hlow⟩
      · exact Or.inr ⟨hn, hr0, hall⟩
      · exact Or.inl ⟨hn, hr, hbit, hlow⟩

/-- Witness for C11 at the all-zero input, where the loop takes its 64 steps. -/
theorem totality_witness :
    65 ≤ 65 ∧ 7 < 2 ^ 64 ∧ fss_scan_steps (0 &&& 7) 65 1 0 = some (0, 64) ∧
      fss_scan (0 &&& 7) 64 1 = none ∧
      ((∃ r, fss_algorithm 65 7 0 0 = some r ∧ r < 2 ^ 64 ∧
          fss_algorithm 65 7 0 0 = some r) ∧
        ∃ rep n, fss_scan_steps (0 &&& 7) 65 1 0 = some (rep, n) ∧
          fss_scan (0 &&& 7) 65 1 = some rep ∧ n ≤ 64 ∧
          ((n < 64 ∧ rep = 2 ^ n ∧ (0 &&& 7).testBit n = true ∧
              ∀ i, i < n → (0 &&& 7).testBit i = false) ∨
            (n = 64 ∧ rep = 0 ∧ ∀ j, j < 64 → (0 &&& 7).testBit j = false))) :=
  ⟨by decide, by decide, by decide, by decide, totality 65 7 0 0 (by decide) (by decide)⟩

/-! ## Masked and unmasked hold test -/

/-- C12. The hold test of the source, `(current & m) & previous`, and the test
with both operands masked, `(current & m) & (previous & m)`, give the same
arbiter: `fss_algorithm` and `fss_algorithm_masked` agree on every input. -/
theorem masked_hold_equivalent (fuel m current previous : Nat) :
    fss_algorithm fuel m current previous = fss_algorithm_masked fuel m current previous := by
  have h : current &&& m &&& (previous &&& m) = current &&& m &&& previous := by
    rw [Nat.and_comm previous m, ← Nat.and_assoc, Nat.and_assoc current m m, Nat.and_self]
  simp only [fss_algorithm, fss_algorithm_masked, h]

/-- C17. The one-hot guarantee depends on the latch: with `m = 0b11`,
`previous = 0b11` (two bits inside the mask) and `current = 0b01`, a single
call returns `0b11`, two group bits, of which bit 1 is not touched in
`current`. -/
theorem one_hot_needs_latch :
    ∃ m current previous r : Nat,
      m = 0b11 ∧ previous = 0b11 ∧ current = 0b01 ∧
      (previous &&& m).testBit 0 = true ∧ (previous &&& m).testBit 1 = true ∧
      (∀ fuel, fss_algorithm fuel m current previous = some r) ∧
      (r &&& m).testBit 0 = true ∧ (r &&& m).testBit 1 = true ∧
      current.testBit 1 = false ∧ ¬ AtMostOneBit (r &&& m) := by
  refine ⟨0b11, 0b01, 0b11, 0b11, rfl, rfl, rfl, by decide, by decide, ?_, by decide,
    by decide, by decide, ?_⟩
  · intro fuel
    rw [fss_algorithm_hold fuel _ _ _ (by decide)]
    decide
  · intro h
    have := h 0 1 (by decide) (by decide)
    omega


/-! ## Where the bits of the result come from -/

theorem fss_algorithm_total (fuel m c p : Nat) (hf : 65 ≤ fuel) :
    ∃ rep, fss_algorithm fuel m c p = some (rep ||| (c &&& not64 m)) ∧
      ((c &&& m &&& p ≠ 0 ∧ rep = p &&& m) ∨
        (c &&& m &&& p = 0 ∧ (rep = 0 ∨ ∃ j, rep = 2 ^ j ∧ (c &&& m).testBit j = true))) := by
  by_cases h : c &&& m &&& p = 0
  · obtain ⟨rep, hr, hspec⟩ := fss_algorithm_scan fuel m c p hf h
    refine ⟨rep, hr, Or.inr ⟨h, ?_⟩⟩
    rcases hspec with ⟨h0, _⟩ | ⟨j, _, hrep, hbit, _⟩
    · exact Or.inl h0
    · exact Or.inr ⟨j, hrep, hbit⟩
  · exact ⟨p &&& m, fss_algorithm_hold fuel m c p h, Or.inl ⟨h, rfl⟩⟩

theorem and_testBit_split {x y i : Nat} (h : (x &&& y).testBit i = true) :
    x.testBit i = true ∧ y.testBit i = true := by
  rw [Nat.testBit_and] at h
  exact Bool.and_eq_true _ _ ▸ h

/-- Every bit of the result is a bit of `current`, provided the group part of the
latch has at most one bit. -/
theorem fss_algorithm_within_current (fuel m c p : Nat) (hf : 65 ≤ fuel)
    (hp : AtMostOneBit (p &&& m)) :
    ∃ r, fss_algorithm fuel m c p = some r ∧ BitsWithin r c := by
  obtain ⟨rep, hr, hcase⟩ := fss_algorithm_total fuel m c p hf
  refine ⟨_, hr, ?_⟩
  intro i hi
  rw [Nat.testBit_or] at hi
  rcases (Bool.or_eq_true _ _ ▸ hi : rep.testBit i = true ∨ (c &&& not64 m).testBit i = true)
    with hrep | hpass
  · rcases hcase with ⟨hne, hreq⟩ | ⟨_, h0 | ⟨j, hj, hbit⟩⟩
    · obtain ⟨k, hk⟩ := Nat.ne_zero_implies_bit_true hne
      obtain ⟨hcm, hpk⟩ := and_testBit_split hk
      obtain ⟨hck, hmk⟩ := and_testBit_split hcm
      have hpmk : (p &&& m).testBit k = true := by rw [Nat.testBit_and, hpk, hmk]; rfl
      rw [hreq] at hrep
      have : i = k := hp i k hrep hpmk
      rw [this]; exact hck
    · rw [h0, Nat.zero_testBit] at hrep
      exact Bool.noConfusion hrep
    · rw [hj, Nat.testBit_two_pow] at hrep
      have : j = i := of_decide_eq_true hrep
      rw [← this]
      exact (and_testBit_split hbit).1
  · exact (and_testBit_split hpass).1

/-- Every bit of the result is a bit of the mask when every bit of `current` is. -/
theorem fss_algorithm_within_mask (fuel m c p : Nat) (hf : 65 ≤ fuel)
    (hc : BitsWithin c m) :
    ∃ r, fss_algorithm fuel m c p = some r ∧ BitsWithin r m := by
  obtain ⟨rep, hr, hcase⟩ := fss_algorithm_total fuel m c p hf
  refine ⟨_, hr, ?_⟩
  intro i hi
  rw [Nat.testBit_or] at hi
  rcases (Bool.or_eq_true _ _ ▸ hi : rep.testBit i = true ∨ (c &&& not64 m).testBit i = true)
    with hrep | hpass
  · rcases hcase with ⟨_, hreq⟩ | ⟨_, h0 | ⟨j, hj, hbit⟩⟩
    · rw [hreq] at hrep
      exact (and_testBit_split hrep).2
    · rw [h0, Nat.zero_testBit] at hrep
      exact Bool.noConfusion hrep
    · rw [hj, Nat.testBit_two_pow] at hrep
      have : j = i := of_decide_eq_true hrep
      rw [← this]
      exact (and_testBit_split hbit).2
  · exact hc i (and_testBit_split hpass).1

theorem fss_cycles_within_mask (fuel m : Nat) (hf : 65 ≤ fuel) :
    ∀ (cs : List Nat) (p : Nat), (∀ c, c ∈ cs → BitsWithin c m) →
      ∃ rs, fss_cycles fuel m p cs = some rs ∧ rs.length = cs.length ∧
        ∀ r, r ∈ rs → BitsWithin r m := by
  intro cs
  induction cs with
  | nil =>
    intro p _
    exact ⟨[], rfl, rfl, fun r hr => absurd hr (List.not_mem_nil r)⟩
  | cons c rest ih =>
    intro p hcs
    obtain ⟨r, hr, hin⟩ :=
      fss_algorithm_within_mask fuel m c p hf (hcs c (List.mem_cons_self c rest))
    obtain ⟨rs, hrs, hlen, hall⟩ := ih r (fun x hx => hcs x (List.mem_cons_of_mem c hx))
    refine ⟨r :: rs, ?_, ?_, ?_⟩
    · simp only [fss_cycles, hr, hrs]
    · simp [hlen]
    · intro x hx
      rcases List.mem_cons.mp hx with h | h
      · rw [h]; exact hin
      · exact hall x h

/-- C15. No phantom touch: when `previous & m` has at most one bit set, every
bit set in the result of `fss_algorithm` is set in `current`; for a 64-bit
`current` this is `result & ~current == 0`. -/
theorem no_phantom_touch (fuel m current previous : Nat) (hf : 65 ≤ fuel)
    (hp : AtMostOneBit (previous &&& m)) :
    ∃ r, fss_algorithm fuel m current previous = some r ∧ BitsWithin r current ∧
      (current < 2 ^ 64 → r &&& not64 current = 0) := by
  obtain ⟨r, hr, hin⟩ := fss_algorithm_within_current fuel m current previous hf hp
  refine ⟨r, hr, hin, ?_⟩
  intro hc
  apply Nat.eq_of_testBit_eq
  intro i
  rw [Nat.testBit_and, testBit_not64, Nat.zero_testBit]
  cases hri : r.testBit i
  · simp
  · have hci := hin i hri
    have hi : i < 64 := testBit_of_lt_two_pow_64 hc hci
    simp [hci, hi]

/-- Witness for C15: latch on index 1, sensors 0 and 1 touched, index 1 kept. -/
theorem no_phantom_touch_witness :
    65 ≤ 65 ∧ AtMostOneBit (0b10 &&& 0b11) ∧
      ∃ r, fss_algorithm 65 0b11 0b11 0b10 = some r ∧ BitsWithin r 0b11 ∧
        (0b11 < 2 ^ 64 → r &&& not64 0b11 = 0) :=
  ⟨by decide, atMostOneBit_two_pow 1,
    no_phantom_touch 65 0b11 0b11 0b10 (by decide) (atMostOneBit_two_pow 1)⟩


/-! ## The frame of the writeback pass -/

theorem writeback_sensors_length :
    ∀ (sts : List Nat) (cur : Nat), (writeback_sensors sts cur).1.length = sts.length := by
  intro sts
  induction sts with
  | nil => intro cur; rfl
  | cons st rest ih =>
    intro cur
    simp only [writeback_sensors, List.length_cons, ih]

theorem writeback_sensors_frame (sts : List Nat) (cur j st : Nat) (h : sts[j]? = some st) :
    ∃ st2, (writeback_sensors sts cur).1[j]? = some st2 ∧
      ∀ b : Nat, st.testBit b = false → st2.testBit b = false := by
  refine ⟨st &&& (1 &&& (cur >>> j)), ?_, ?_⟩
  · rw [writeback_sensors_get, h]; rfl
  · intro b hb
    rw [Nat.testBit_and, hb]; rfl

theorem writeback_table_frame :
    ∀ (ws : List Widget) (cur : Nat), FramePreserved ws (writeback_table ws cur).1 := by
  intro ws
  induction ws with
  | nil =>
    intro cur
    refine ⟨rfl, ?_⟩
    intro k w hk
    simp at hk
  | cons w rest ih =>
    intro cur
    by_cases hb : w.wdType = WdType.CY_CAPSENSE_WD_BUTTON_E
    · obtain ⟨hlen, hall⟩ := ih (writeback_sensors w.ptrSnsContext cur).2
      simp only [writeback_table, if_pos hb]
      refine ⟨by simp only [List.length_cons, hlen], ?_⟩
      intro k x hk
      cases k with
      | zero =>
        simp only [List.getElem?_cons_zero, Option.some.injEq] at hk
        subst hk
        refine ⟨_, List.getElem?_cons_zero, rfl, fun hne => absurd hb hne,
          writeback_sensors_length _ _, ?_⟩
        intro j st hj
        exact writeback_sensors_frame _ cur j st hj
      | succ k =>
        rw [List.getElem?_cons_succ] at hk
        rw [List.getElem?_cons_succ]
        exact hall k x hk
    · obtain ⟨hlen, hall⟩ := ih cur
      simp only [writeback_table, if_neg hb]
      refine ⟨by simp only [List.length_cons, hlen], ?_⟩
      intro k x hk
      cases k with
      | zero =>
        simp only [List.getElem?_cons_zero, Option.some.injEq] at hk
        subst hk
        refine ⟨_, List.getElem?_cons_zero, rfl, fun _ => rfl, rfl, ?_⟩
        intro j st hj
        exact ⟨st, hj, fun b hb2 => hb2⟩
      | succ k =>
        rw [List.getElem?_cons_succ] at hk
        rw [List.getElem?_cons_succ]
        exact hall k x hk

theorem capsense_fss_widgets (fuel : Nat) (s s2 : FssState) (h : capsense_fss fuel s = some s2) :
    s2.ptrWdConfig = (writeback_table s.ptrWdConfig s2.previousButtonStatus).1 := by
  unfold capsense_fss at h
  split at h
  · exact Option.noConfusion h
  · split at h
    · exact Option.noConfusion h
    · split at h
      · exact Option.noConfusion h
      · split at h
        · exact Option.noConfusion h
        · rename_i wb hwb
          obtain ⟨_, _, hwbeq⟩ := writeback_widgets_returns fuel _ _ wb hwb
          injection h with h
          rw [← h, hwbeq]

/-- On a table of 256 or more widgets a call of `capsense_fss` does not return,
whatever the budget: the `uint8_t` counter of its first loop never reaches the
widget count. -/
theorem capsense_fss_wraps (fuel : Nat) (s : FssState) (h : 256 ≤ s.ptrWdConfig.length) :
    capsense_fss fuel s = none := by
  simp only [capsense_fss, collect_widgets_wraps s.ptrWdConfig h fuel 0 (0, 0) (by decide)]

/-- C16. Frame: whatever vector the writeback pass is run with, and so after
every call of `capsense_fss`, the widget table keeps its shape, every widget
that is not a button widget is unchanged with all its sensors, and no status
bit of a button sensor has gone from 0 to 1.  The writeback pass returns for
every vector on a table of fewer than 256 widgets and fewer than 256 button
sensors, given budget for one condition evaluation per widget and one more. -/
theorem frame (fuel : Nat) (s : FssState) :
    (∀ resolved wb, writeback_widgets fuel 0 s.ptrWdConfig resolved = some wb →
        FramePreserved s.ptrWdConfig wb.1) ∧
      (∀ s2, capsense_fss fuel s = some s2 → FramePreserved s.ptrWdConfig s2.ptrWdConfig) ∧
      (s.ptrWdConfig.length ≤ 255 → s.ptrWdConfig.length < fuel →
        (buttonStatuses s.ptrWdConfig).length ≤ 255 →
        ∀ resolved, ∃ wb, writeback_widgets fuel 0 s.ptrWdConfig resolved = some wb) := by
  refine ⟨?_, ?_, ?_⟩
  · intro resolved wb h
    obtain ⟨_, _, hwb⟩ := writeback_widgets_returns fuel _ _ wb h
    rw [hwb]
    exact writeback_table_frame s.ptrWdConfig resolved
  · intro s2 h
    rw [capsense_fss_widgets fuel s s2 h]
    exact writeback_table_frame s.ptrWdConfig _
  · intro hlen hfuel _ resolved
    exact ⟨_, writeback_widgets_ok fuel s.ptrWdConfig resolved hlen hfuel⟩

/-- Witness for C16: a proximity widget and a button widget with both sensors
touched; the call runs, keeps the proximity sensor and only clears a bit. -/
theorem frame_witness :
    ∃ s2, capsense_fss 65
        { ptrWdConfig := [⟨WdType.CY_CAPSENSE_WD_PROXIMITY_E, [3]⟩,
            ⟨WdType.CY_CAPSENSE_WD_BUTTON_E, [1, 1]⟩]
          currentButtonStatus := 0
          previousButtonStatus := 0
          sensorCount := 0 } = some s2 ∧
      s2.ptrWdConfig = [⟨WdType.CY_CAPSENSE_WD_PROXIMITY_E, [3]⟩,
        ⟨WdType.CY_CAPSENSE_WD_BUTTON_E, [1, 0]⟩] ∧
      FramePreserved [⟨WdType.CY_CAPSENSE_WD_PROXIMITY_E, [3]⟩,
        ⟨WdType.CY_CAPSENSE_WD_BUTTON_E, [1, 1]⟩] s2.ptrWdConfig :=
  ⟨{ ptrWdConfig := [⟨WdType.CY_CAPSENSE_WD_PROXIMITY_E, [3]⟩,
        ⟨WdType.CY_CAPSENSE_WD_BUTTON_E, [1, 0]⟩]
     currentButtonStatus := 0
     previousButtonStatus := 1
     sensorCount := 2 },
    by decide, rfl,
    (frame 65 { ptrWdConfig := [⟨WdType.CY_CAPSENSE_WD_PROXIMITY_E, [3]⟩,
                  ⟨WdType.CY_CAPSENSE_WD_BUTTON_E, [1, 1]⟩]
                currentButtonStatus := 0
                previousButtonStatus := 0
                sensorCount := 0 }).2.1 _ (by decide)⟩

/-! ## One whole cycle of `capsense_fss` -/

theorem touchVector_within (sts : List Nat) :
    BitsWithin (touchVector 0 sts) (2 ^ sts.length - 1) := by
  intro i hi
  rw [touchVector_testBit, Nat.sub_zero] at hi
  rw [Nat.testBit_two_pow_sub_one]
  cases hget : sts[i]? with
  | none =>
    rw [hget] at hi
    simp at hi
  | some st =>
    have hlt : i < sts.length := (List.getElem?_eq_some_iff.mp hget).1
    exact decide_eq_true hlt

theorem touchVector_bit (sts : List Nat) (i st : Nat) (hget : sts[i]? = some st)
    (hi : (touchVector 0 sts).testBit i = true) : st.testBit 0 = true := by
  rw [touchVector_testBit, Nat.sub_zero, hget] at hi
  simpa using hi

theorem two_pow_sub_one_lt (n : Nat) (h : n ≤ 30) : 2 ^ n - 1 < 2 ^ 64 := by
  have h1 : (2 : Nat) ^ n ≤ 2 ^ 30 := Nat.pow_le_pow_right (by decide) h
  have h2 : (2 : Nat) ^ 30 < 2 ^ 64 := by decide
  omega

/-- A call of `capsense_fss` on a table of fewer than 256 widgets with at most
30 button sensors runs to the end; the arbiter is called with the touch vector
of the button sensors and the mask `2 ^ n - 1`. -/
theorem capsense_fss_run (fuel : Nat) (s : FssState) (hf : 65 ≤ fuel)
    (hlen : s.ptrWdConfig.length ≤ 255) (hfuel : s.ptrWdConfig.length < fuel)
    (hn : (buttonStatuses s.ptrWdConfig).length ≤ 30) :
    ∃ r, fss_algorithm fuel (2 ^ (buttonStatuses s.ptrWdConfig).length - 1)
          (touchVector 0 (buttonStatuses s.ptrWdConfig)) s.previousButtonStatus = some r ∧
      capsense_fss fuel s =
        some { ptrWdConfig := (writeback_table s.ptrWdConfig r).1
               currentButtonStatus := (writeback_table s.ptrWdConfig r).2
               previousButtonStatus := r
               sensorCount := (buttonStatuses s.ptrWdConfig).length } := by
  obtain ⟨rep, hr, _⟩ := fss_algorithm_total fuel (2 ^ (buttonStatuses s.ptrWdConfig).length - 1)
    (touchVector 0 (buttonStatuses s.ptrWdConfig)) s.previousButtonStatus hf
  refine ⟨_, hr, ?_⟩
  have hcol := collect_widgets_ok s.ptrWdConfig fuel hlen hfuel (by omega)
  have hmask := FSS_ENABLE_MASK_ok _ hn
  have hwb := writeback_widgets_ok fuel s.ptrWdConfig
    (rep ||| (touchVector 0 (buttonStatuses s.ptrWdConfig) &&&
      not64 (2 ^ (buttonStatuses s.ptrWdConfig).length - 1))) hlen hfuel
  simp only [capsense_fss, hcol, hmask, hr, hwb]

theorem and_lsb (st r i : Nat) :
    st &&& (1 &&& (r >>> i)) = if (st.testBit 0 && r.testBit i) = true then 1 else 0 := by
  have hr : r.testBit i = decide ((r >>> i) % 2 = 1) := by
    rw [← Nat.testBit_zero, Nat.testBit_shiftRight, Nat.add_zero]
  have hs : st.testBit 0 = decide (st % 2 = 1) := Nat.testBit_zero st
  rw [Nat.one_and_eq_mod_two, hr, hs]
  rcases Nat.mod_two_eq_zero_or_one (r >>> i) with h | h
  · rw [h]; simp
  · rw [h, Nat.and_one_is_mod]
    rcases Nat.mod_two_eq_zero_or_one st with h2 | h2 <;> rw [h2] <;> simp


theorem bit_value_testBit (b : Bool) :
    (if b = true then 1 else 0 : Nat).testBit 0 = b ∧
      ∀ k, 0 < k → (if b = true then 1 else 0 : Nat).testBit k = false := by
  cases b
  · refine ⟨by simp, fun k _ => by simp⟩
  · refine ⟨by simp, fun k hk => ?_⟩
    have hk0 : ¬ k = 0 := by omega
    simp [one_testBit, hk0]

/-- The writeback of a vector whose bits are all touch flags of the table
leaves the button sensor with index `i` with status bit `i` of the vector. -/
theorem writeback_table_status (ws : List Widget) (r i prior : Nat)
    (hres : BitsWithin r (touchVector 0 (buttonStatuses ws)))
    (hget : (buttonStatuses ws)[i]? = some prior) :
    (buttonStatuses (writeback_table ws r).1)[i]? =
      some (if r.testBit i = true then 1 else 0) := by
  rw [(writeback_table_eq ws r).1, writeback_sensors_get, hget, Option.map_some', and_lsb]
  cases hbit : r.testBit i with
  | false => simp
  | true =>
    have := touchVector_bit _ i _ hget (hres i hbit)
    simp [this]

theorem writeback_table_length (ws : List Widget) (r : Nat) :
    (buttonStatuses (writeback_table ws r).1).length = (buttonStatuses ws).length := by
  rw [(writeback_table_eq ws r).1, writeback_sensors_length]

/-- C14. Whole cycle: on a table of fewer than 256 widgets (the range of the
`uint8_t` widget counter) with `n <= 30` button sensors and a latch whose low
`n` bits hold at most one set bit, one call of `capsense_fss` collects the
touch vector, resolves it with `fss_algorithm` under the mask `2 ^ n - 1`
against the old latch, stores the result `r` as `previousButtonStatus`, leaves
the button sensor with index `i < n` with status bit `i` of `r` (1 or 0), and
so leaves at most one button sensor with a non-zero status. -/
theorem whole_cycle (fuel : Nat) (s : FssState) (hf : 65 ≤ fuel)
    (hw : s.ptrWdConfig.length ≤ 255) (hfw : s.ptrWdConfig.length < fuel)
    (hn : (buttonStatuses s.ptrWdConfig).length ≤ 30)
    (hp : AtMostOneBit
      (s.previousButtonStatus &&& (2 ^ (buttonStatuses s.ptrWdConfig).length - 1))) :
    ∃ s2 r,
      collect_widgets s.ptrWdConfig fuel 0 (0, 0) =
        some (touchVector 0 (buttonStatuses s.ptrWdConfig),
          (buttonStatuses s.ptrWdConfig).length) ∧
      FSS_ENABLE_MASK (buttonStatuses s.ptrWdConfig).length =
        some (2 ^ (buttonStatuses s.ptrWdConfig).length - 1) ∧
      fss_algorithm fuel (2 ^ (buttonStatuses s.ptrWdConfig).length - 1)
        (touchVector 0 (buttonStatuses s.ptrWdConfig)) s.previousButtonStatus = some r ∧
      capsense_fss fuel s = some s2 ∧
      s2.previousButtonStatus = r ∧
      (∀ i, i < (buttonStatuses s.ptrWdConfig).length →
        (buttonStatuses s2.ptrWdConfig)[i]? = some (if r.testBit i = true then 1 else 0)) ∧
      (∀ (i j a b : Nat), (buttonStatuses s2.ptrWdConfig)[i]? = some a → a ≠ 0 →
        (buttonStatuses s2.ptrWdConfig)[j]? = some b → b ≠ 0 → i = j) := by
  obtain ⟨r, hr, hrun⟩ := capsense_fss_run fuel s hf hw hfw hn
  have hm := two_pow_sub_one_lt _ hn
  obtain ⟨r1, hr1, hone⟩ := fss_algorithm_one_hot_step fuel _
    (touchVector 0 (buttonStatuses s.ptrWdConfig)) s.previousButtonStatus hf hm hp
  obtain ⟨r2, hr2, hin⟩ := fss_algorithm_within_current fuel _
    (touchVector 0 (buttonStatuses s.ptrWdConfig)) s.previousButtonStatus hf hp
  have e1 : r1 = r := Option.some.inj (hr1.symm.trans hr)
  have e2 : r2 = r := Option.some.inj (hr2.symm.trans hr)
  rw [e1] at hone
  rw [e2] at hin
  have hstatus : ∀ i, i < (buttonStatuses s.ptrWdConfig).length →
      (buttonStatuses (writeback_table s.ptrWdConfig r).1)[i]? =
        some (if r.testBit i = true then 1 else 0) := by
    intro i hi
    exact writeback_table_status s.ptrWdConfig r i _ hin (List.getElem?_eq_getElem hi)
  have hnz : ∀ i a, (buttonStatuses (writeback_table s.ptrWdConfig r).1)[i]? = some a →
      a ≠ 0 → (r &&& (2 ^ (buttonStatuses s.ptrWdConfig).length - 1)).testBit i = true := by
    intro i a ha hne
    have hlen : i < (buttonStatuses s.ptrWdConfig).length := by
      have h1 := (List.getElem?_eq_some_iff.mp ha).1
      rw [writeback_table_length] at h1
      exact h1
    rw [hstatus i hlen] at ha
    have hbit : r.testBit i = true := by
      cases hb : r.testBit i with
      | true => rfl
      | false =>
        rw [hb] at ha
        exact absurd (Option.some.inj ha).symm hne
    rw [Nat.testBit_and, hbit, touchVector_within _ i (hin i hbit)]
    rfl
  refine ⟨_, r, collect_widgets_ok s.ptrWdConfig fuel hw hfw (by omega), FSS_ENABLE_MASK_ok _ hn,
    hr, hrun, rfl, hstatus, ?_⟩
  intro i j a b ha hane hb hbne
  exact hone i j (hnz i a ha hane) (hnz j b hb hbne)

/-- Witness for C14: latch on index 1, sensors 0 and 1 touched; index 1 stays
reported and index 0 is suppressed. -/
theorem whole_cycle_witness :
    65 ≤ 65 ∧ [(⟨WdType.CY_CAPSENSE_WD_BUTTON_E, [1, 1]⟩ : Widget)].length ≤ 255 ∧
    ∃ s2 r,
      collect_widgets [⟨WdType.CY_CAPSENSE_WD_BUTTON_E, [1, 1]⟩] 65 0 (0, 0) =
        some (touchVector 0 [1, 1], 2) ∧
      FSS_ENABLE_MASK 2 = some (2 ^ 2 - 1) ∧
      fss_algorithm 65 (2 ^ 2 - 1) (touchVector 0 [1, 1]) 2 = some r ∧
      capsense_fss 65
        { ptrWdConfig := [⟨WdType.CY_CAPSENSE_WD_BUTTON_E, [1, 1]⟩]
          currentButtonStatus := 0
          previousButtonStatus := 2
          sensorCount := 0 } = some s2 ∧
      s2.previousButtonStatus = r ∧
      (∀ i, i < 2 →
        (buttonStatuses s2.ptrWdConfig)[i]? = some (if r.testBit i = true then 1 else 0)) ∧
      (∀ (i j a b : Nat), (buttonStatuses s2.ptrWdConfig)[i]? = some a → a ≠ 0 →
        (buttonStatuses s2.ptrWdConfig)[j]? = some b → b ≠ 0 → i = j) :=
  ⟨by decide, by decide,
    whole_cycle 65
      { ptrWdConfig := [⟨WdType.CY_CAPSENSE_WD_BUTTON_E, [1, 1]⟩]
        currentButtonStatus := 0
        previousButtonStatus := 2
        sensorCount := 0 }
      (by decide) (by decide) (by decide) (by decide) (atMostOneBit_two_pow 1)⟩


/-- C8. Writeback: after the writeback loop of `capsense_fss` the button sensor
at enumeration index `i` has a status whose touch bit equals bit `i` of the
resolved vector and whose other bits are all 0, whatever its prior status
byte.  This holds for every resolved vector the loop can be handed, one whose
set bits are touch flags of the table, on a table of fewer than 256 widgets
and fewer than 256 button sensors;
and the vector a call of `capsense_fss` resolves, on a table with `n <= 30`
button sensors and a latch with at most one bit in its low `n` bits, is such a
vector. -/
theorem writeback_status (fuel : Nat) (s : FssState) (hf : 65 ≤ fuel)
    (hw : s.ptrWdConfig.length ≤ 255) (hfw : s.ptrWdConfig.length < fuel) :
    ((buttonStatuses s.ptrWdConfig).length ≤ 255 →
        ∀ resolved, BitsWithin resolved (touchVector 0 (buttonStatuses s.ptrWdConfig)) →
        ∃ wb, writeback_widgets fuel 0 s.ptrWdConfig resolved = some wb ∧
          ∀ (i prior : Nat), (buttonStatuses s.ptrWdConfig)[i]? = some prior →
            ∃ st, (buttonStatuses wb.1)[i]? = some st ∧
              st.testBit 0 = resolved.testBit i ∧ ∀ k, 0 < k → st.testBit k = false) ∧
      ((buttonStatuses s.ptrWdConfig).length ≤ 30 →
        AtMostOneBit
          (s.previousButtonStatus &&& (2 ^ (buttonStatuses s.ptrWdConfig).length - 1)) →
        ∃ s2 resolved,
          fss_algorithm fuel (2 ^ (buttonStatuses s.ptrWdConfig).length - 1)
            (touchVector 0 (buttonStatuses s.ptrWdConfig)) s.previousButtonStatus
              = some resolved ∧
          capsense_fss fuel s = some s2 ∧
          writeback_widgets fuel 0 s.ptrWdConfig resolved =
            some (s2.ptrWdConfig, s2.currentButtonStatus) ∧
          BitsWithin resolved (touchVector 0 (buttonStatuses s.ptrWdConfig)) ∧
          ∀ (i prior : Nat), (buttonStatuses s.ptrWdConfig)[i]? = some prior →
            ∃ st, (buttonStatuses s2.ptrWdConfig)[i]? = some st ∧
              st.testBit 0 = resolved.testBit i ∧ ∀ k, 0 < k → st.testBit k = false) := by
  have hloop : ∀ resolved, BitsWithin resolved (touchVector 0 (buttonStatuses s.ptrWdConfig)) →
      ∀ (i prior : Nat), (buttonStatuses s.ptrWdConfig)[i]? = some prior →
        ∃ st, (buttonStatuses (writeback_table s.ptrWdConfig resolved).1)[i]? = some st ∧
          st.testBit 0 = resolved.testBit i ∧ ∀ k, 0 < k → st.testBit k = false := by
    intro resolved hres i prior hget
    exact ⟨_, writeback_table_status s.ptrWdConfig resolved i prior hres hget,
      (bit_value_testBit (resolved.testBit i)).1, (bit_value_testBit (resolved.testBit i)).2⟩
  constructor
  · intro _ resolved hres
    exact ⟨_, writeback_widgets_ok fuel s.ptrWdConfig resolved hw hfw, hloop resolved hres⟩
  · intro hn hp
    obtain ⟨r, hr, hrun⟩ := capsense_fss_run fuel s hf hw hfw hn
    obtain ⟨r2, hr2, hin⟩ := fss_algorithm_within_current fuel _
      (touchVector 0 (buttonStatuses s.ptrWdConfig)) s.previousButtonStatus hf hp
    have e2 : r2 = r := Option.some.inj (hr2.symm.trans hr)
    rw [e2] at hin
    exact ⟨_, r, hr, hrun, writeback_widgets_ok fuel s.ptrWdConfig r hw hfw, hin, hloop r hin⟩

/-- Witness for C8: a proximity widget and a button widget whose second sensor
carries a second status flag; sensor 0 wins, sensor 1 is written to 0. -/
theorem writeback_status_witness :
    65 ≤ 65 ∧
      (∃ s2, capsense_fss 65
          { ptrWdConfig := [⟨WdType.CY_CAPSENSE_WD_PROXIMITY_E, [1]⟩,
              ⟨WdType.CY_CAPSENSE_WD_BUTTON_E, [1, 3]⟩]
            currentButtonStatus := 0
            previousButtonStatus := 0
            sensorCount := 0 } = some s2 ∧
        s2.previousButtonStatus = 1 ∧ buttonStatuses s2.ptrWdConfig = [1, 0]) ∧
      ((([1, 3] : List Nat).length ≤ 255 →
          ∀ resolved, BitsWithin resolved (touchVector 0 [1, 3]) →
          ∃ wb, writeback_widgets 65 0 [⟨WdType.CY_CAPSENSE_WD_PROXIMITY_E, [1]⟩,
              ⟨WdType.CY_CAPSENSE_WD_BUTTON_E, [1, 3]⟩] resolved = some wb ∧
            ∀ (i prior : Nat), ([1, 3] : List Nat)[i]? = some prior →
              ∃ st, (buttonStatuses wb.1)[i]? = some st ∧
                st.testBit 0 = resolved.testBit i ∧ ∀ k, 0 < k → st.testBit k = false) ∧
        (([1, 3] : List Nat).length ≤ 30 →
          AtMostOneBit (0 &&& (2 ^ ([1, 3] : List Nat).length - 1)) →
          ∃ s2 resolved,
            fss_algorithm 65 (2 ^ ([1, 3] : List Nat).length - 1) (touchVector 0 [1, 3]) 0
              = some resolved ∧
            capsense_fss 65
              { ptrWdConfig := [⟨WdType.CY_CAPSENSE_WD_PROXIMITY_E, [1]⟩,
                  ⟨WdType.CY_CAPSENSE_WD_BUTTON_E, [1, 3]⟩]
                currentButtonStatus := 0
                previousButtonStatus := 0
                sensorCount := 0 } = some s2 ∧
            writeback_widgets 65 0 [⟨WdType.CY_CAPSENSE_WD_PROXIMITY_E, [1]⟩,
                ⟨WdType.CY_CAPSENSE_WD_BUTTON_E, [1, 3]⟩] resolved =
              some (s2.ptrWdConfig, s2.currentButtonStatus) ∧
            BitsWithin resolved (touchVector 0 [1, 3]) ∧
            ∀ (i prior : Nat), ([1, 3] : List Nat)[i]? = some prior →
              ∃ st, (buttonStatuses s2.ptrWdConfig)[i]? = some st ∧
                st.testBit 0 = resolved.testBit i ∧ ∀ k, 0 < k → st.testBit k = false)) :=
  ⟨by decide,
    ⟨{ ptrWdConfig := [⟨WdType.CY_CAPSENSE_WD_PROXIMITY_E, [1]⟩,
          ⟨WdType.CY_CAPSENSE_WD_BUTTON_E, [1, 0]⟩]
       currentButtonStatus := 0
       previousButtonStatus := 1
       sensorCount := 2 }, by decide, rfl, by decide⟩,
    writeback_status 65
      { ptrWdConfig := [⟨WdType.CY_CAPSENSE_WD_PROXIMITY_E, [1]⟩,
          ⟨WdType.CY_CAPSENSE_WD_BUTTON_E, [1, 3]⟩]
        currentButtonStatus := 0
        previousButtonStatus := 0
        sensorCount := 0 }
      (by decide) (by decide) (by decide)⟩

/-- C13, the claim as stated fails: with the mask `0b0111` and the single
current vector `0b1010`, the latch after the cycle is `0b1010`, whose bit 3
lies outside the mask. -/
theorem latch_outside_mask_counterexample :
    ¬ (∀ rs, fss_cycles 65 0b0111 0 [0b1010] = some rs →
        ∀ r, r ∈ rs → BitsWithin r 0b0111) := by
  intro h
  have h3 := h [0b1010] (by decide) 0b1010 (List.mem_singleton.mpr rfl) 3 (by decide)
  revert h3
  decide

/-- C13, amended. Starting from `previousButtonStatus = 0` with a fixed mask
`m`, when no current vector has a bit set outside `m` the latch stored after
each cycle has no bit set outside `m`.  This is the situation of
`capsense_fss` on a table of fewer than 256 widgets with `n <= 30` button
sensors: its collected vector lies within its mask `2 ^ n - 1`, and the latch
it stores has no bit outside that mask, whatever the latch was before. -/
theorem latch_within_mask (fuel m : Nat) (hf : 65 ≤ fuel) (cs : List Nat)
    (hcs : ∀ c, c ∈ cs → BitsWithin c m) :
    (∃ rs, fss_cycles fuel m 0 cs = some rs ∧ rs.length = cs.length ∧
        ∀ r, r ∈ rs → BitsWithin r m) ∧
      ∀ s : FssState, s.ptrWdConfig.length ≤ 255 → s.ptrWdConfig.length < fuel →
        (buttonStatuses s.ptrWdConfig).length ≤ 30 →
        ∃ s2, capsense_fss fuel s = some s2 ∧
          BitsWithin s2.previousButtonStatus (2 ^ (buttonStatuses s.ptrWdConfig).length - 1) := by
  refine ⟨fss_cycles_within_mask fuel m hf cs 0 hcs, ?_⟩
  intro s hw hfw hn
  obtain ⟨r, hr, hrun⟩ := capsense_fss_run fuel s hf hw hfw hn
  obtain ⟨r1, hr1, hin⟩ := fss_algorithm_within_mask fuel _ _ s.previousButtonStatus hf
    (touchVector_within (buttonStatuses s.ptrWdConfig))
  have e1 : r1 = r := Option.some.inj (hr1.symm.trans hr)
  rw [e1] at hin
  exact ⟨_, hrun, hin⟩

/-- Witness for C13 amended: three cycles within the mask `0b0111`, and one
call of `capsense_fss` on two touched buttons with a stale latch. -/
theorem latch_within_mask_witness :
    65 ≤ 65 ∧ (∀ c, c ∈ [0b0110, 0b0111, 0b0001] → BitsWithin c 0b0111) ∧
      (∃ rs, fss_cycles 65 0b0111 0 [0b0110, 0b0111, 0b0001] = some rs ∧
        rs.length = [0b0110, 0b0111, 0b0001].length ∧ ∀ r, r ∈ rs → BitsWithin r 0b0111) ∧
      ∃ s2, capsense_fss 65
          { ptrWdConfig := [⟨WdType.CY_CAPSENSE_WD_BUTTON_E, [1, 1]⟩]
            currentButtonStatus := 0
            previousButtonStatus := 0b1100
            sensorCount := 0 } = some s2 ∧
        BitsWithin s2.previousButtonStatus (2 ^ 2 - 1) :=
  have hcs : ∀ c, c ∈ [0b0110, 0b0111, 0b0001] → BitsWithin c 0b0111 := by
    intro c hc i hi
    have hlt : c < 2 ^ 3 := by
      simp only [List.mem_cons, List.mem_singleton, List.not_mem_nil, or_false] at hc
      rcases hc with h | h | h <;> rw [h] <;> decide
    have hi3 : i < 3 := by
      by_contra hge
      have hle : 2 ^ 3 ≤ 2 ^ i := Nat.pow_le_pow_right (by decide) (Nat.le_of_not_lt hge)
      rw [Nat.testBit_lt_two_pow (Nat.lt_of_lt_of_le hlt hle)] at hi
      exact Bool.noConfusion hi
    have h7 : (0b0111 : Nat).testBit i = decide (i < 3) := Nat.testBit_two_pow_sub_one 3 i
    rw [h7]
    exact decide_eq_true hi3
  ⟨by decide, hcs, (latch_within_mask 65 0b0111 (by decide) _ hcs).1,
    (latch_within_mask 65 0b0111 (by decide) _ hcs).2 _ (by decide) (by decide) (by decide)⟩

end Fss
